import Mathlib

/-!
# Verification of the ZBot MongoDB data-access layer (`zbot/database.py`)

This file gives a shallow embedding of the data-access layer of the ZBot
chat bot and proves the behavioural properties claimed by its
specification.

Documents are modelled as ordered association lists of field name/value
pairs, collections as lists of documents, and the MongoDB operations used
by the layer (`update_one` with an `_id` equality filter and a `$set`
payload, `find` with an inclusion projection, `find_one`, …) are embedded
directly.  Dates and times are modelled with a proleptic Gregorian
calendar (as in Python's `datetime`), with `dateutil`'s
`relativedelta(years=1)` subtraction embedded as a year decrement that
clamps the day-of-month, so that the anniversary-bucketing loop of
`get_anniversary_account_ids` can be analysed faithfully.  The model's
year is an unbounded integer while Python's `datetime` years are
restricted to `1..9999` (stepping below year 1 raises `ValueError`), so
every anniversary theorem carries hypotheses (valid dates with year at
least 2 on both the reference date and the minimum creation date) under
which every date the loop computes stays inside `datetime`'s range.
-/

namespace ZBot

set_option maxRecDepth 10000

/-- A BSON field value: the layer stores integers (identifiers,
timestamps) and strings (display names, texts). -/
inductive Value where
  | vint (z : Int)
  | vstr (s : String)
deriving DecidableEq

/-- A document: an ordered association list of field name/value pairs.
MongoDB documents have unique field names; documents built by the
operations below preserve that. -/
abbrev Doc := List (String × Value)

/-- A collection: the list of stored documents, in insertion order. -/
abbrev Coll := List Doc

/-- Field lookup in a document (Python's `doc[key]` / Mongo field access). -/
def Doc.get (d : Doc) (k : String) : Option Value :=
  d.lookup k

/-- The inclusion projection `find(..., {k₁: 1, ..., kₙ: 1})`: keeps the
`_id` field and the requested fields. -/
def Doc.project (d : Doc) (keys : List String) : Doc :=
  d.filter (fun p => p.1 = "_id" || keys.contains p.1)

/-- `$set`: overwrite the value of field `k`, or append the field if the
document does not have it. -/
def Doc.setField (d : Doc) (k : String) (v : Value) : Doc :=
  if (d.lookup k).isSome then
    d.map (fun p => if p.1 = k then (k, v) else p)
  else
    d ++ [(k, v)]

/-- `$set` with a whole partial field set. -/
def Doc.setFields (d : Doc) (fs : List (String × Value)) : Doc :=
  fs.foldl (fun d p => d.setField p.1 p.2) d

/-- The query filters the layer uses: the empty filter `{}`, an `_id`
equality filter, and a `{field: {'$gt': lo, '$lt': hi}}` range filter.
Mongo's `$gt`/`$lt` on a numeric bound only ever match numeric stored
values, and a document lacking the field does not match. -/
inductive Filter where
  | all
  | idEq (v : Value)
  | range (field : String) (lo hi : Int)

/-- Filter evaluation on one document. -/
def Filter.matches : Filter → Doc → Bool
  | .all, _ => true
  | .idEq v, d => decide (d.get "_id" = some v)
  | .range field lo hi, d =>
      match d.get field with
      | some (.vint z) => decide (lo < z) && decide (z < hi)
      | _ => false

/-- `find(query, projection)`: the matching documents, in collection
order, each restricted to the projected fields. -/
def Coll.findProj (c : Coll) (f : Filter) (keys : List String) : List Doc :=
  (c.filter (fun d => f.matches d)).map (fun d => d.project keys)

/-- `find_one(query)`: the first matching document, if any. -/
def Coll.findOne (c : Coll) (f : Filter) : Option Doc :=
  (c.filter (fun d => f.matches d)).head?

/-- `update_one({'_id': idv}, {'$set': fs}, upsert)`: modify the supplied
fields of the first document whose `_id` equals `idv`; when there is none
and `upsert` is set, insert a fresh document `{_id: idv} ∪ fs`.  Returns
the new collection together with `upserted_id`. -/
def Coll.updateOneById (c : Coll) (idv : Value) (fs : List (String × Value))
    (upsert : Bool) : Coll × Option Value :=
  match c with
  | [] =>
      if upsert then ([Doc.setFields [("_id", idv)] fs], some idv)
      else ([], none)
  | d :: rest =>
      if d.get "_id" = some idv then
        (d.setFields fs :: rest, none)
      else
        let r := Coll.updateOneById rest idv fs upsert
        (d :: r.1, r.2)

/-- Whether some stored document has the given identifier. -/
def Coll.hasId (c : Coll) (idv : Value) : Prop :=
  ∃ d ∈ c, d.get "_id" = some idv

instance (c : Coll) (idv : Value) : Decidable (c.hasId idv) :=
  List.decidableBEx _ c

/-- Number of stored documents with the given identifier. -/
def Coll.countId (c : Coll) (idv : Value) : Nat :=
  (c.filter (fun d => decide (d.get "_id" = some idv))).length

/-! ## Repository operations (`zbot/database.py`) -/

/-- `update_metadata(key, value)`: upsert `{'$set': {'data': value}}` on
the metadata document with `_id = key`. -/
def update_metadata (coll : Coll) (key value : Value) : Coll :=
  (coll.updateOneById key [("data", value)] true).1

/-- `get_metadata(key)`: `find_one({'_id': key})`; a truthy result yields
`res['data']` (a `KeyError` when the field is missing, modelled as
`.error`), a falsy result (no document) yields `None`. -/
def get_metadata (coll : Coll) (key : Value) : Except String (Option Value) :=
  match coll.findOne (.idEq key) with
  | some res =>
      if res = [] then .ok none
      else
        match res.get "data" with
        | some v => .ok (some v)
        | none => .error "KeyError: data"
  | none => .ok none

/-- A recruitment announce as handed to the layer by the chat client:
`announce.id`, `announce.author.id` and `announce.created_at`. -/
structure Announce where
  id : Value
  authorId : Value
  createdAt : Value

/-- `update_recruitment_announces(announces)`: upsert author and time by
announce id, counting how many upserts inserted. -/
def update_recruitment_announces (coll : Coll) (announces : List Announce) :
    Coll × Nat :=
  announces.foldl
    (fun st a =>
      let r := st.1.updateOneById a.id
        [("author", a.authorId), ("time", a.createdAt)] true
      (r.1, st.2 + if r.2.isSome then 1 else 0))
    (coll, 0)

/-- `update_job_data(collection_name, job_id, data)`: `update_one` on the
job-store collection, with MongoDB's default `upsert=False`. -/
def update_job_data (coll : Coll) (job_id : Value)
    (data : List (String × Value)) : Coll :=
  (coll.updateOneById job_id data false).1

/-- Python-dict insertion `m[k] = v`: replace in place, or append. -/
def dictInsert (m : List (Value × Doc)) (k : Value) (v : Doc) :
    List (Value × Doc) :=
  if (m.lookup k).isSome then
    m.map (fun p => if p.1 = k then (k, v) else p)
  else
    m ++ [(k, v)]

/-- `load_pending_jobs_data(collection_name, data_keys)`: project every
stored job document to `data_keys` and key the results by the projected
document's `message_id` field; a projected document without that field
raises a `KeyError`. -/
def load_pending_jobs_data (coll : Coll) (data_keys : List String) :
    Except String (List (Value × Doc)) :=
  (coll.findProj .all data_keys).foldlM
    (fun acc d =>
      match d.get "message_id" with
      | some mid => .ok (dictInsert acc mid d)
      | none => .error "KeyError: message_id")
    []

/-- A chat-platform member, as far as this layer reads it: `member.id`. -/
structure Member where
  id : Value
deriving DecidableEq

/-- `update_accounts_data(accounts_data)`: upsert each member's account
data by `member.id`, counting inserts. -/
def update_accounts_data (coll : Coll)
    (accounts_data : List (Member × List (String × Value))) : Coll × Nat :=
  accounts_data.foldl
    (fun st p =>
      let r := st.1.updateOneById p.1.id p.2 true
      (r.1, st.2 + if r.2.isSome then 1 else 0))
    (coll, 0)

/-- `get_unrecorded_members(members)`: collect the `_id` of every stored
account document (via `find({}, {'_id': 1})`) and keep the members whose
id is not among them, in input order. -/
def get_unrecorded_members (coll : Coll) (members : List Member) :
    Except String (List Member) :=
  match (coll.findProj .all ["_id"]).mapM
      (fun d =>
        match d.get "_id" with
        | some v => Except.ok v
        | none => Except.error "KeyError: _id") with
  | .ok account_ids =>
      .ok (members.filter (fun m => !(account_ids.contains m.id)))
  | .error e => .error e

/-- `update_automessages(automessages_data)`: `update_one` by document id
with `{'$set': data}` and MongoDB's default `upsert=False`. -/
def update_automessages (coll : Coll)
    (automessages_data : List (Value × List (String × Value))) : Coll :=
  automessages_data.foldl
    (fun c p => (c.updateOneById p.1 p.2 false).1) coll

/-- `load_automessages(query, data_keys)`: `find(query, dict.fromkeys
(data_keys, 1))`, then re-filter each returned document to the keys in
`data_keys` (this comprehension drops the implicitly projected `_id`). -/
def load_automessages (coll : Coll) (query : Filter)
    (data_keys : List String) : List Doc :=
  (coll.findProj query data_keys).map
    (fun d => d.filter (fun p => data_keys.contains p.1))

/-! ## Connection manager -/

/-- The collection registry `COLLECTIONS_CONFIG`: logical collection name
with its `is_jobstore` flag. -/
def COLLECTIONS_CONFIG : List (String × Bool) :=
  [("account_data", false), ("automessage", false), ("metadata", false),
   ("pending_lottery", true), ("pending_poll", true),
   ("recruitment_announce", false)]

/-- Python falsiness of `os.getenv` results: `None` or the empty string. -/
def pyFalsy : Option String → Bool
  | none => true
  | some s => s = ""

/-- The `MongoDBConnector` state observable in this layer. -/
structure MongoDBConnector where
  clientSet : Bool
  connected : Bool
  collectionsLoaded : List String
  database_host : String
  database_name : String
deriving DecidableEq

/-- `MongoDBConnector.__init__`: read the host and database name from the
environment and fail with a `ConnectionFailure` when either is falsy;
otherwise start disconnected with no client and no cached collections. -/
def connectorInit (host database_name : Option String) :
    Except String MongoDBConnector :=
  if pyFalsy host then
    .error "ConnectionFailure: no MongoDB host in environment"
  else if pyFalsy database_name then
    .error "ConnectionFailure: no MongoDB database name in environment"
  else
    .ok (MongoDBConnector.mk false false [] (host.getD "") (database_name.getD ""))

/-- `open_connection()`: build the client, probe the server (`ismaster`,
whose success is the external condition `ismaster_ok`); on success record
the connected state and cache every configured collection, on
`ConnectionFailure` log and fall through.  Returns the updated state and
the returned `self.connected` flag. -/
def open_connection (m : MongoDBConnector) (ismaster_ok : Bool) :
    MongoDBConnector × Bool :=
  if ismaster_ok then
    let m' := MongoDBConnector.mk true true (COLLECTIONS_CONFIG.map Prod.fst)
      m.database_host m.database_name
    (m', m'.connected)
  else
    let m' := MongoDBConnector.mk true m.connected m.collectionsLoaded
      m.database_host m.database_name
    (m', m'.connected)

/-! ## Dates, times and timestamps

Python `datetime.date` values are proleptic Gregorian dates; the year is
modelled as an integer so that all date arithmetic is total.
`dateutil.relativedelta` steps by calendar units and clamps the day of
month to the target month's length (Feb 29 minus one year is Feb 28). -/

/-- A calendar date (proleptic Gregorian, as `datetime.date`). -/
structure Date where
  year : Int
  month : Nat
  day : Nat
deriving DecidableEq

/-- Gregorian leap-year rule. -/
def isLeap (y : Int) : Bool :=
  (y % 4 = 0 && !(y % 100 = 0)) || y % 400 = 0

/-- Length of a month. -/
def daysInMonth (y : Int) (m : Nat) : Nat :=
  match m with
  | 1 => 31
  | 2 => if isLeap y then 29 else 28
  | 3 => 31
  | 4 => 30
  | 5 => 31
  | 6 => 30
  | 7 => 31
  | 8 => 31
  | 9 => 30
  | 10 => 31
  | 11 => 30
  | 12 => 31
  | _ => 0

/-- Days in a common year before the first of month `m`. -/
def monthOffset (m : Nat) : Int :=
  match m with
  | 1 => 0
  | 2 => 31
  | 3 => 59
  | 4 => 90
  | 5 => 120
  | 6 => 151
  | 7 => 181
  | 8 => 212
  | 9 => 243
  | 10 => 273
  | 11 => 304
  | 12 => 334
  | _ => 0

/-- Days in year `y` before the first of month `m`. -/
def daysBeforeMonth (y : Int) (m : Nat) : Int :=
  monthOffset m + (if 3 ≤ m ∧ isLeap y then 1 else 0)

/-- Number of leap years in `1..y` (for `y ≥ 0`). -/
def leapsBefore (y : Int) : Int :=
  y / 4 - y / 100 + y / 400

/-- Day number of a date (Jan 1 of year 1 is day 1, as
`datetime.date.toordinal`). -/
def Date.toOrdinal (d : Date) : Int :=
  365 * (d.year - 1) + leapsBefore (d.year - 1)
    + daysBeforeMonth d.year d.month + d.day

/-- A well-formed calendar date. -/
def Date.Valid (d : Date) : Prop :=
  1 ≤ d.month ∧ d.month ≤ 12 ∧ 1 ≤ d.day ∧ d.day ≤ daysInMonth d.year d.month

instance : DecidablePred Date.Valid := fun d => by
  unfold Date.Valid; infer_instance

/-- `date - relativedelta(years=1)`: decrement the year, clamping the day
to the target month's length.  Faithful to `dateutil` whenever the result
stays inside `datetime`'s range (year ≥ 1); `datetime.replace` raises
`ValueError` below that, so theorems about the anniversary loop restrict
their dates to years ≥ 2, which keeps every stepped date in range (the
loop only steps days that are still at or after the minimum creation
date). -/
def subYearsDate (d : Date) : Date :=
  Date.mk (d.year - 1) d.month (min d.day (daysInMonth (d.year - 1) d.month))

/-- `date + relativedelta(days=1)`. -/
def addDay (d : Date) : Date :=
  if d.day < daysInMonth d.year d.month then Date.mk d.year d.month (d.day + 1)
  else if d.month < 12 then Date.mk d.year (d.month + 1) 1
  else Date.mk (d.year + 1) 1 1

/-- A time instant in the community's fixed timezone: a date plus seconds
since that date's midnight (a timezone-aware `datetime`). -/
structure DateTime where
  date : Date
  sec : Nat
deriving DecidableEq

/-- `COMMUNITY_TIMEZONE.localize(datetime.combine(d, time(0, 0)))`:
midnight of a date. -/
def midnight (d : Date) : DateTime := DateTime.mk d 0

/-- Modelled from the spec: `converter.to_timestamp` (the converter module
is not part of the sources).  The spec requires "timestamp
representations consistent with stored data"; the conversion is the
strictly monotone seconds count of the instant, the constant timezone
offset being dropped since the same conversion produces the stored
`creation_date` values. -/
def to_timestamp (t : DateTime) : Int :=
  86400 * t.date.toOrdinal + t.sec

/-- Comparison of timezone-aware datetimes: comparison of instants. -/
def DateTime.le (t1 t2 : DateTime) : Prop :=
  to_timestamp t1 ≤ to_timestamp t2

instance : ∀ t1 t2 : DateTime, Decidable (t1.le t2) := fun t1 t2 => by
  unfold DateTime.le; infer_instance

/-! ## The anniversary calculator -/

/-- The year buckets `account_anniversaries`: a Python dict from
years-elapsed to the list of account identifiers, as an association
list in insertion order. -/
abbrev Buckets := List (Nat × List Value)

/-- `account_anniversaries.setdefault(k, []).append(v)`. -/
def bucketsAppend (bs : Buckets) (k : Nat) (v : Value) : Buckets :=
  if (bs.lookup k).isSome then
    bs.map (fun p => if p.1 = k then (p.1, p.2 ++ [v]) else p)
  else
    bs ++ [(k, [v])]

/-- The body of the `for account_data in accounts_data` loop: append each
account's `_id` to the current year's bucket and its `display_name` to
the log list; a missing field is a `KeyError`. -/
def processAccounts : List Doc → Nat → Buckets → List Value →
    Except String (Buckets × List Value)
  | [], _, bs, ns => .ok (bs, ns)
  | d :: ds, k, bs, ns =>
      match d.get "_id", d.get "display_name" with
      | some idv, some nv =>
          processAccounts ds k (bucketsAppend bs k idv) (ns ++ [nv])
      | _, _ => .error "KeyError: _id or display_name"

/-- The `while anniversary_day >= min_account_creation_date` loop of
`get_anniversary_account_ids`: query the accounts whose `creation_date`
lies strictly between the timestamps of the anniversary day and of its
paired upper-bound day, bucket them under the current years-elapsed
count, then step both days back one more year.  The loop is embedded
with an explicit fuel bound (the Python loop is unbounded); alongside the
buckets it returns the collected display names and the final value of the
`anniversary_years` counter. -/
def annivLoop (coll : Coll) (M : DateTime) :
    Nat → Date → Date → Nat → Buckets → List Value →
    Except String (Buckets × List Value × Nat)
  | 0, _, _, _, _, _ => .error "fuel exhausted"
  | fuel + 1, a, b, k, bs, ns =>
      if M.le (midnight a) then
        match processAccounts
            (coll.findProj
              (.range "creation_date" (to_timestamp (midnight a))
                (to_timestamp (midnight b)))
              ["_id", "display_name"])
            k bs ns with
        | .error e => .error e
        | .ok (bs', ns') =>
            annivLoop coll M fuel (subYearsDate a) (subYearsDate b) (k + 1)
              bs' ns'
      else .ok (bs, ns, k)

/-- Fuel that provably outlasts the loop: each step moves the anniversary
day back at least 364 ordinal days and the loop stops once it drops below
`M`'s day. -/
def annivFuel (R : Date) (M : DateTime) : Nat :=
  ((subYearsDate R).toOrdinal + 365 - M.date.toOrdinal).toNat + 1

/-- `get_anniversary_account_ids(reference_date, min_account_creation_date)`:
start from midnight one year before the reference date (and its following
day) and run the bucketing loop. -/
def get_anniversary_account_ids (coll : Coll) (reference_date : DateTime)
    (min_account_creation_date : DateTime) :
    Except String (Buckets × List Value × Nat) :=
  let anniversary_day := subYearsDate reference_date.date
  annivLoop coll min_account_creation_date
    (annivFuel reference_date.date min_account_creation_date)
    anniversary_day (addDay anniversary_day) 1 [] []

/-- The anniversary day `k` years before the reference date: the year
step applied `k` times. -/
def nthAnniversary (R : Date) (k : Nat) : Date :=
  subYearsDate^[k] R

/-- The upper-bound day paired with the `k`-th anniversary day: the day
after the first anniversary day, stepped back `k - 1` further years. -/
def nthUpperBound (R : Date) (k : Nat) : Date :=
  subYearsDate^[k - 1] (addDay (subYearsDate R))

/-- Whether the `k`-th anniversary day of `R` still lies at or after `M`:
the loop condition at iteration `k`. -/
def annivP (M : DateTime) (R : Date) (k : Nat) : Prop :=
  1 ≤ k ∧ M.le (midnight (nthAnniversary R k))

instance (M : DateTime) (R : Date) : DecidablePred (annivP M R) := fun k => by
  unfold annivP; infer_instance

/-- The number of whole years between `M` and a reference date `R`,
following the spec's words: how many successive anniversary days of `R`
(midnight, one calendar year back each) lie at or after `M`. -/
def floorYearsBetween (M : DateTime) (R : Date) : Nat :=
  Nat.findGreatest (annivP M R) (annivFuel R M)

/-- Membership of an account identifier in a year bucket. -/
def inBucket (bs : Buckets) (k : Nat) (v : Value) : Prop :=
  ∃ l, bs.lookup k = some l ∧ v ∈ l

/-- Some stored account whose `creation_date` timestamp lies strictly
between the midnights of days `a` and `b` carries identifier `v`. -/
def matchWin (coll : Coll) (a b : Date) (v : Value) : Prop :=
  ∃ d ∈ coll,
    (Filter.range "creation_date" (to_timestamp (midnight a))
      (to_timestamp (midnight b))).matches d = true ∧
    Doc.get d "_id" = some v

/-- Relation between an anniversary day and its paired upper-bound day
that the year-stepping maintains: the upper bound is the same day or the
next day in the same month, the first of the next month, or January 1 of
the next year. -/
def WinInv (a b : Date) : Prop :=
  (b.year = a.year ∧ b.month = a.month ∧ (b.day = a.day ∨ b.day = a.day + 1))
  ∨ (b.year = a.year ∧ b.month = a.month + 1 ∧ b.day = 1
      ∧ 1 ≤ a.month ∧ a.month ≤ 11
      ∧ daysInMonth a.year a.month ≤ a.day + 1
      ∧ a.day ≤ daysInMonth a.year a.month
      ∧ (a.month = 2 → 28 ≤ a.day))
  ∨ (b.year = a.year + 1 ∧ b.month = 1 ∧ b.day = 1 ∧ a.month = 12 ∧ a.day = 31)

/-! ## Association-list lemmas -/

lemma lookup_cons {α β : Type} [DecidableEq α] (k a : α) (b : β)
    (l : List (α × β)) :
    ((a, b) :: l).lookup k = if k = a then some b else l.lookup k := by
  simp only [List.lookup]
  by_cases h : k = a
  · rw [if_pos h, show (k == a) = true by simpa using h]
  · rw [if_neg h, show (k == a) = false by simpa using h]

lemma lookup_append {α β : Type} [DecidableEq α] (k : α)
    (l₁ l₂ : List (α × β)) :
    (l₁ ++ l₂).lookup k =
      match l₁.lookup k with
      | some b => some b
      | none => l₂.lookup k := by
  induction l₁ with
  | nil => simp [List.lookup]
  | cons p rest ih =>
    obtain ⟨a, b⟩ := p
    by_cases h : k = a <;> simp [lookup_cons, h, ih]

lemma lookup_isSome_of_mem {α β : Type} [DecidableEq α] {l : List (α × β)}
    {p : α × β} (h : p ∈ l) : (l.lookup p.1).isSome := by
  induction l with
  | nil => cases h
  | cons q rest ih =>
    obtain ⟨a, b⟩ := q
    rcases List.mem_cons.mp h with h | h
    · subst h; simp [lookup_cons]
    · by_cases hk : p.1 = a <;> simp [lookup_cons, hk, ih h]

/-- Field lookup after filtering on a key predicate. -/
lemma lookup_filter_keyPred (q : String → Bool) (d : Doc) (k : String) :
    (d.filter (fun p => q p.1)).lookup k =
      if q k then d.lookup k else none := by
  induction d with
  | nil => simp [List.lookup]
  | cons p rest ih =>
    obtain ⟨a, b⟩ := p
    rw [List.filter_cons]
    by_cases hk : k = a
    · subst hk
      by_cases hq : q k
      · simp [hq, lookup_cons, ih]
      · simp [hq, ih]
    · by_cases hq : q a
      · simp [hq, lookup_cons, hk, ih]
      · simp [hq, lookup_cons, hk, ih]

/-- Projection preserves the `_id` field. -/
lemma project_get_id (d : Doc) (keys : List String) :
    (d.project keys).get "_id" = d.get "_id" := by
  have h := lookup_filter_keyPred
    (fun s => decide (s = "_id") || keys.contains s) d "_id"
  simpa [Doc.project, Doc.get] using h

/-- Projection preserves every requested field. -/
lemma project_get_of_mem (d : Doc) (keys : List String) {k : String}
    (hk : k ∈ keys) : (d.project keys).get k = d.get k := by
  have h := lookup_filter_keyPred
    (fun s => decide (s = "_id") || keys.contains s) d k
  simpa [Doc.project, Doc.get, hk] using h

/-- Membership in a projected find. -/
lemma mem_findProj {c : Coll} {f : Filter} {keys : List String} {d' : Doc} :
    d' ∈ c.findProj f keys ↔
      ∃ d ∈ c, f.matches d = true ∧ d' = d.project keys := by
  unfold Coll.findProj
  simp only [List.mem_map, List.mem_filter]
  constructor
  · rintro ⟨d, ⟨hd, hm⟩, rfl⟩; exact ⟨d, hd, hm, rfl⟩
  · rintro ⟨d, hd, hm, rfl⟩; exact ⟨d, ⟨hd, hm⟩, rfl⟩

lemma lookup_map_setcase (d : List (String × Value)) (k k' : String)
    (v : Value) (h : k' ≠ k) :
    (d.map (fun p => if p.1 = k then (k, v) else p)).lookup k' =
      d.lookup k' := by
  induction d with
  | nil => rfl
  | cons p rest ih =>
    obtain ⟨a, b⟩ := p
    by_cases ha : a = k
    · subst ha
      simp [lookup_cons, h, ih]
    · simp [lookup_cons, ha, ih]

lemma lookup_map_setcase_self (d : List (String × Value)) (k : String)
    (v : Value) (h : (d.lookup k).isSome) :
    (d.map (fun p => if p.1 = k then (k, v) else p)).lookup k = some v := by
  induction d with
  | nil => simp [List.lookup] at h
  | cons p rest ih =>
    obtain ⟨a, b⟩ := p
    by_cases ha : a = k
    · subst ha
      simp [lookup_cons]
    · have hka : k ≠ a := fun hh => ha hh.symm
      rw [lookup_cons, if_neg hka] at h
      simp [lookup_cons, ha, hka, ih h]

/-- `$set` of a single field leaves the other fields unchanged. -/
lemma setField_get_ne (d : Doc) {k k' : String} (v : Value) (h : k' ≠ k) :
    (d.setField k v).get k' = d.get k' := by
  unfold Doc.setField Doc.get
  split
  · exact lookup_map_setcase d k k' v h
  · rw [lookup_append]
    cases hl : d.lookup k' with
    | some b => rfl
    | none => rw [lookup_cons, if_neg h]; rfl

/-- `$set` of a single field sets that field. -/
lemma setField_get_self (d : Doc) (k : String) (v : Value) :
    (d.setField k v).get k = some v := by
  unfold Doc.setField Doc.get
  split
  case isTrue h => exact lookup_map_setcase_self d k v h
  case isFalse h =>
    rw [lookup_append]
    cases hl : d.lookup k with
    | some b => exact absurd (by simp [hl]) h
    | none => rw [lookup_cons, if_pos rfl]

/-- `$set` of a field list leaves non-supplied fields unchanged. -/
lemma setFields_get_not_mem (d : Doc) (fs : List (String × Value))
    {k : String} (h : k ∉ fs.map Prod.fst) :
    (d.setFields fs).get k = d.get k := by
  induction fs generalizing d with
  | nil => rfl
  | cons p rest ih =>
    obtain ⟨a, v⟩ := p
    simp only [List.map_cons, List.mem_cons, not_or] at h
    unfold Doc.setFields
    simp only [List.foldl_cons]
    rw [show (List.foldl (fun d p => d.setField p.1 p.2)
      (d.setField a v) rest) = (d.setField a v).setFields rest from rfl]
    rw [ih _ h.2, setField_get_ne _ _ h.1]

/-! ## `update_one` lemmas -/

lemma updateOneById_cons_ne (d : Doc) (rest : Coll) (idv : Value)
    (fs : List (String × Value)) (up : Bool)
    (hd : ¬ (d.get "_id" = some idv)) :
    Coll.updateOneById (d :: rest) idv fs up
      = (d :: (Coll.updateOneById rest idv fs up).1,
         (Coll.updateOneById rest idv fs up).2) := by
  simp only [Coll.updateOneById, if_neg hd]

lemma updateOneById_cons_eq (d : Doc) (rest : Coll) (idv : Value)
    (fs : List (String × Value)) (up : Bool)
    (hd : d.get "_id" = some idv) :
    Coll.updateOneById (d :: rest) idv fs up
      = (d.setFields fs :: rest, none) := by
  simp only [Coll.updateOneById, if_pos hd]

lemma updateOneById_not_hasId_true (c : Coll) (idv : Value)
    (fs : List (String × Value)) (h : ¬ c.hasId idv) :
    c.updateOneById idv fs true =
      (c ++ [Doc.setFields [("_id", idv)] fs], some idv) := by
  induction c with
  | nil => rfl
  | cons d rest ih =>
    have hd : ¬ (d.get "_id" = some idv) := fun hh =>
      h ⟨d, List.mem_cons_self d rest, hh⟩
    have hrest : ¬ Coll.hasId rest idv := by
      intro hr
      obtain ⟨d', hd', hh⟩ := hr
      exact h ⟨d', List.mem_cons_of_mem d hd', hh⟩
    unfold Coll.updateOneById
    rw [if_neg hd]
    simp [ih hrest]

lemma updateOneById_not_hasId_false (c : Coll) (idv : Value)
    (fs : List (String × Value)) (h : ¬ c.hasId idv) :
    c.updateOneById idv fs false = (c, none) := by
  induction c with
  | nil => rfl
  | cons d rest ih =>
    have hd : ¬ (d.get "_id" = some idv) := fun hh =>
      h ⟨d, List.mem_cons_self d rest, hh⟩
    have hrest : ¬ Coll.hasId rest idv := by
      intro hr
      obtain ⟨d', hd', hh⟩ := hr
      exact h ⟨d', List.mem_cons_of_mem d hd', hh⟩
    unfold Coll.updateOneById
    rw [if_neg hd]
    simp [ih hrest]

lemma updateOneById_present (pre : Coll) (d : Doc) (post : Coll)
    (idv : Value) (fs : List (String × Value)) (up : Bool)
    (hpre : ∀ d' ∈ pre, ¬ (d'.get "_id" = some idv))
    (hd : d.get "_id" = some idv) :
    (pre ++ d :: post).updateOneById idv fs up =
      (pre ++ d.setFields fs :: post, none) := by
  induction pre with
  | nil => simp [Coll.updateOneById, hd]
  | cons e rest ih =>
    have he : ¬ (e.get "_id" = some idv) :=
      hpre e (List.mem_cons_self e rest)
    simp only [List.cons_append]
    unfold Coll.updateOneById
    rw [if_neg he]
    simp [ih (fun d' hd' => hpre d' (List.mem_cons_of_mem e hd'))]

lemma countId_cons (d : Doc) (c : Coll) (idv : Value) :
    Coll.countId (d :: c) idv =
      (if d.get "_id" = some idv then 1 else 0) + c.countId idv := by
  unfold Coll.countId
  rw [List.filter_cons]
  by_cases hd : d.get "_id" = some idv <;> simp [hd, Nat.add_comm]

lemma countId_append (c₁ c₂ : Coll) (idv : Value) :
    (c₁ ++ c₂).countId idv = c₁.countId idv + c₂.countId idv := by
  unfold Coll.countId
  simp [List.filter_append]

/-- An upsert leaves the entity count at 1 if it was 0, unchanged
otherwise (the `$set` payload does not touch `_id`). -/
lemma countId_updateOneById_true (c : Coll) (idv : Value)
    (fs : List (String × Value)) (hfs : "_id" ∉ fs.map Prod.fst) :
    (c.updateOneById idv fs true).1.countId idv =
      if c.countId idv = 0 then 1 else c.countId idv := by
  have hnew : (Doc.setFields [("_id", idv)] fs).get "_id" = some idv := by
    rw [setFields_get_not_mem _ _ hfs]
    simp [Doc.get, lookup_cons]
  induction c with
  | nil => simp [Coll.updateOneById, Coll.countId, hnew]
  | cons d rest ih =>
    by_cases hd : d.get "_id" = some idv
    · unfold Coll.updateOneById
      rw [if_pos hd]
      have hset : (d.setFields fs).get "_id" = some idv := by
        rw [setFields_get_not_mem _ _ hfs]; exact hd
      rw [countId_cons, countId_cons, if_pos hd, if_pos hset]
      simp
    · unfold Coll.updateOneById
      rw [if_neg hd]
      simp only [countId_cons, if_neg hd, Nat.zero_add]
      exact ih

lemma countId_updateOneById_true_of_le_one (c : Coll) (idv : Value)
    (fs : List (String × Value)) (hfs : "_id" ∉ fs.map Prod.fst)
    (h : c.countId idv ≤ 1) :
    (c.updateOneById idv fs true).1.countId idv = 1 := by
  rw [countId_updateOneById_true c idv fs hfs]
  split <;> omega

/-! ## Metadata round trip -/

lemma get_metadata_roundtrip (coll : Coll) (k v : Value) :
    get_metadata (update_metadata coll k v) k = .ok (some v) := by
  unfold update_metadata
  induction coll with
  | nil =>
    have h1 : Coll.updateOneById [] k [("data", v)] true
        = ([[("_id", k), ("data", v)]], some k) := rfl
    rw [h1]
    have hget : Doc.get [("_id", k), ("data", v)] "_id" = some k := by
      simp [Doc.get, lookup_cons]
    unfold get_metadata Coll.findOne
    simp [Filter.matches, hget, Doc.get, lookup_cons]
  | cons d rest ih =>
    by_cases hd : d.get "_id" = some k
    · have h1 : Coll.updateOneById (d :: rest) k [("data", v)] true
          = (d.setFields [("data", v)] :: rest, none) := by
        unfold Coll.updateOneById; rw [if_pos hd]
      rw [h1]
      have hid : (d.setFields [("data", v)]).get "_id" = some k := by
        rw [setFields_get_not_mem]
        · exact hd
        · simp
      have hdata : (d.setFields [("data", v)]).get "data" = some v :=
        setField_get_self d "data" v
      have hne : ¬ (d.setFields [("data", v)] = []) := by
        intro hh
        rw [hh] at hid
        simp [Doc.get, List.lookup] at hid
      unfold get_metadata Coll.findOne
      simp [Filter.matches, hid, hdata, hne]
    · rw [updateOneById_cons_ne d rest k [("data", v)] true hd]
      unfold get_metadata Coll.findOne
      unfold get_metadata Coll.findOne at ih
      simp only [List.filter_cons]
      rw [show ((Filter.idEq k).matches d) = false by
        simp [Filter.matches, hd]]
      simpa using ih

/-! ## Keyed-map lemmas for dict updates -/

lemma lookup_map_keyed {α β : Type} [DecidableEq α] (g : α → β → β)
    (l : List (α × β)) (k : α) :
    (l.map (fun p => (p.1, g p.1 p.2))).lookup k = (l.lookup k).map (g k) := by
  induction l with
  | nil => rfl
  | cons p rest ih =>
    obtain ⟨a, b⟩ := p
    by_cases h : k = a
    · subst h; simp [lookup_cons, ih]
    · simp [lookup_cons, h, ih]

lemma map_dictcase_eq {α β : Type} [DecidableEq α] (k : α) (v : β)
    (l : List (α × β)) :
    l.map (fun p => if p.1 = k then (k, v) else p)
      = l.map (fun p => (p.1, (fun a b => if a = k then v else b) p.1 p.2)) := by
  apply List.map_congr_left
  intro p _
  by_cases h : p.1 = k <;> simp [h]

lemma map_appendcase_eq (k : Nat) (v : Value) (l : Buckets) :
    l.map (fun p => if p.1 = k then (p.1, p.2 ++ [v]) else p)
      = l.map (fun p =>
          (p.1, (fun a b => if a = k then b ++ [v] else b) p.1 p.2)) := by
  apply List.map_congr_left
  intro p _
  by_cases h : p.1 = k <;> simp [h]

lemma lookup_dictInsert_self (m : List (Value × Doc)) (k : Value) (v : Doc) :
    (dictInsert m k v).lookup k = some v := by
  unfold dictInsert
  split
  case isTrue h =>
    rw [map_dictcase_eq]
    rw [lookup_map_keyed (fun a b => if a = k then v else b) m k]
    obtain ⟨b, hb⟩ := Option.isSome_iff_exists.mp h
    rw [hb]
    simp
  case isFalse h =>
    rw [lookup_append]
    cases hl : m.lookup k with
    | some b => exact absurd (by simp [hl]) h
    | none => rw [lookup_cons, if_pos rfl]

lemma lookup_dictInsert_ne (m : List (Value × Doc)) {k w : Value}
    (v : Doc) (h : w ≠ k) :
    (dictInsert m k v).lookup w = m.lookup w := by
  unfold dictInsert
  split
  case isTrue _ =>
    rw [map_dictcase_eq]
    rw [lookup_map_keyed (fun a b => if a = k then v else b) m w]
    cases hl : m.lookup w <;> simp [h]
  case isFalse _ =>
    rw [lookup_append]
    cases hl : m.lookup w with
    | some b => rfl
    | none => rw [lookup_cons, if_neg h]; rfl

lemma lookup_dictInsert_isSome (m : List (Value × Doc)) (k w : Value)
    (v : Doc) :
    ((dictInsert m k v).lookup w).isSome ↔ (m.lookup w).isSome ∨ w = k := by
  by_cases h : w = k
  · subst h; simp [lookup_dictInsert_self]
  · rw [lookup_dictInsert_ne m v h]
    simp [h]

lemma mem_dictInsert {m : List (Value × Doc)} {k : Value} {v : Doc}
    {p : Value × Doc} (hp : p ∈ dictInsert m k v) :
    p ∈ m ∨ (p.1 = k ∧ p.2 = v) := by
  unfold dictInsert at hp
  split at hp
  · rcases List.mem_map.mp hp with ⟨q, hq, hqe⟩
    by_cases h : q.1 = k
    · rw [if_pos h] at hqe
      right
      rw [← hqe]
      exact ⟨rfl, rfl⟩
    · rw [if_neg h] at hqe
      left
      rw [← hqe]
      exact hq
  · rcases List.mem_append.mp hp with h | h
    · left; exact h
    · right
      rcases List.mem_singleton.mp h with rfl
      exact ⟨rfl, rfl⟩

/-! ## Bucket lemmas -/

lemma inBucket_bucketsAppend (bs : Buckets) (k : Nat) (v : Value)
    (j : Nat) (w : Value) :
    inBucket (bucketsAppend bs k v) j w ↔
      inBucket bs j w ∨ (j = k ∧ w = v) := by
  unfold bucketsAppend inBucket
  split
  case isTrue h =>
    rw [map_appendcase_eq]
    rw [lookup_map_keyed (fun a b => if a = k then b ++ [v] else b) bs j]
    by_cases hj : j = k
    · subst hj
      obtain ⟨l₀, hl⟩ := Option.isSome_iff_exists.mp h
      rw [hl]
      have hmap : (some l₀).map (fun b => if j = j then b ++ [v] else b)
          = some (l₀ ++ [v]) := by simp
      rw [hmap]
      constructor
      · rintro ⟨l, hle, hw⟩
        have hll : l = l₀ ++ [v] := by injection hle with hh; exact hh.symm
        subst hll
        rcases List.mem_append.mp hw with hw | hw
        · exact Or.inl ⟨l₀, rfl, hw⟩
        · exact Or.inr ⟨rfl, List.mem_singleton.mp hw⟩
      · rintro (⟨l, hle, hw⟩ | ⟨-, hwv⟩)
        · have hll : l = l₀ := by injection hle with hh; exact hh.symm
          rw [hll] at hw
          exact ⟨l₀ ++ [v], rfl, List.mem_append.mpr (Or.inl hw)⟩
        · exact ⟨l₀ ++ [v], rfl, List.mem_append.mpr (Or.inr (by simp [hwv]))⟩
    · cases hl : bs.lookup j <;> simp [hl, hj]
  case isFalse h =>
    rw [lookup_append]
    by_cases hj : j = k
    · subst hj
      cases hl : bs.lookup j with
      | some b => exact absurd (by simp [hl]) h
      | none =>
        rw [lookup_cons, if_pos rfl]
        simp [hl]
    · cases hl : bs.lookup j with
      | some b => simp [hl, hj]
      | none =>
        rw [lookup_cons, if_neg hj]
        simp [hl, hj]

lemma lookup_isSome_bucketsAppend (bs : Buckets) (k : Nat) (v : Value)
    (j : Nat) :
    ((bucketsAppend bs k v).lookup j).isSome ↔
      (bs.lookup j).isSome ∨ j = k := by
  unfold bucketsAppend
  split
  case isTrue h =>
    rw [map_appendcase_eq]
    rw [lookup_map_keyed (fun a b => if a = k then b ++ [v] else b) bs j]
    by_cases hj : j = k
    · subst hj; simp [h]
    · simp [hj]
  case isFalse h =>
    rw [lookup_append]
    by_cases hj : j = k
    · subst hj
      cases hl : bs.lookup j with
      | some b => exact absurd (by simp [hl]) h
      | none => rw [lookup_cons, if_pos rfl]; simp
    · cases hl : bs.lookup j with
      | some b => simp
      | none => rw [lookup_cons, if_neg hj]; simp [hj]

/-! ## Upsert-sequence lemmas -/

lemma metadata_fold_countId (idv : Value) :
    ∀ (vs : List Value) (coll : Coll), Coll.countId coll idv = 1 →
      Coll.countId (vs.foldl (fun c v => update_metadata c idv v) coll) idv
        = 1 := by
  intro vs
  induction vs with
  | nil => intro coll h1; simpa using h1
  | cons v rest ih =>
    intro coll h1
    simp only [List.foldl_cons]
    exact ih _ (countId_updateOneById_true_of_le_one coll idv _
      (by simp) (by omega))

lemma announces_fold_countId (idv : Value) :
    ∀ (l : List Announce) (st : Coll × Nat),
      (∀ x ∈ l, x.id = idv) → Coll.countId st.1 idv = 1 →
      Coll.countId (List.foldl (fun st a =>
          let r := Coll.updateOneById st.1 a.id
            [("author", a.authorId), ("time", a.createdAt)] true
          (r.1, st.2 + if r.2.isSome then 1 else 0)) st l).1 idv
        = 1 := by
  intro l
  induction l with
  | nil => intro st _ h1; simpa using h1
  | cons a rest ih =>
    intro st hall h1
    simp only [List.foldl_cons]
    apply ih _ (fun x hx => hall x (List.mem_cons_of_mem a hx))
    show Coll.countId (Coll.updateOneById st.1 a.id
      [("author", a.authorId), ("time", a.createdAt)] true).1 idv = 1
    rw [hall a (List.mem_cons_self a rest)]
    exact countId_updateOneById_true_of_le_one st.1 idv _
      (by simp) (by omega)

lemma accounts_fold_countId (idv : Value) :
    ∀ (l : List (Member × List (String × Value))) (st : Coll × Nat),
      (∀ p ∈ l, p.1.id = idv) → (∀ p ∈ l, "_id" ∉ p.2.map Prod.fst) →
      Coll.countId st.1 idv = 1 →
      Coll.countId (List.foldl (fun st p =>
          let r := Coll.updateOneById st.1 p.1.id p.2 true
          (r.1, st.2 + if r.2.isSome then 1 else 0)) st l).1 idv
        = 1 := by
  intro l
  induction l with
  | nil => intro st _ _ h1; simpa using h1
  | cons p rest ih =>
    intro st hall hfs h1
    simp only [List.foldl_cons]
    apply ih _ (fun x hx => hall x (List.mem_cons_of_mem p hx))
      (fun x hx => hfs x (List.mem_cons_of_mem p hx))
    show Coll.countId (Coll.updateOneById st.1 p.1.id p.2 true).1 idv = 1
    rw [hall p (List.mem_cons_self p rest)]
    exact countId_updateOneById_true_of_le_one st.1 idv _
      (hfs p (List.mem_cons_self p rest)) (by omega)

/-! ## Projection-query lemmas -/

lemma findProj_all (c : Coll) (keys : List String) :
    c.findProj .all keys = c.map (fun d => d.project keys) := by
  unfold Coll.findProj
  congr 1
  apply List.filter_eq_self.mpr
  intro d _
  rfl

lemma mapM_get_id (docs : List Doc)
    (h : ∀ d ∈ docs, (Doc.get d "_id").isSome) :
    docs.mapM (fun d =>
        match d.get "_id" with
        | some v => Except.ok v
        | none => Except.error "KeyError: _id")
      = Except.ok (docs.filterMap (fun d => d.get "_id")) := by
  induction docs with
  | nil => rfl
  | cons d rest ih =>
    obtain ⟨v, hv⟩ := Option.isSome_iff_exists.mp
      (h d (List.mem_cons_self d rest))
    rw [List.mapM_cons, ih (fun d' hd' => h d' (List.mem_cons_of_mem d hd'))]
    simp only [List.filterMap_cons, hv]
    rfl

lemma pending_foldlM_spec (docs : List Doc)
    (h : ∀ d ∈ docs, (Doc.get d "message_id").isSome) :
    ∀ acc, ∃ m,
      (docs.foldlM (fun acc d =>
          match d.get "message_id" with
          | some mid => Except.ok (dictInsert acc mid d)
          | none => Except.error "KeyError: message_id") acc) = .ok m ∧
      (∀ w, (m.lookup w).isSome ↔
        (acc.lookup w).isSome ∨ ∃ d ∈ docs, Doc.get d "message_id" = some w) ∧
      (∀ p, p ∈ m →
        p ∈ acc ∨ ∃ d ∈ docs, Doc.get d "message_id" = some p.1 ∧ p.2 = d) := by
  induction docs with
  | nil =>
    intro acc
    exact ⟨acc, rfl, by simp, fun p hp => Or.inl hp⟩
  | cons d rest ih =>
    intro acc
    obtain ⟨mid, hmid⟩ := Option.isSome_iff_exists.mp
      (h d (List.mem_cons_self d rest))
    obtain ⟨m, hm, hsome, hmem⟩ :=
      ih (fun d' hd' => h d' (List.mem_cons_of_mem d hd'))
        (dictInsert acc mid d)
    refine ⟨m, ?_, ?_, ?_⟩
    · rw [List.foldlM_cons, hmid]
      exact hm
    · intro w
      rw [hsome w, lookup_dictInsert_isSome]
      constructor
      · rintro ((hw | rfl) | ⟨d', hd', hw⟩)
        · exact Or.inl hw
        · exact Or.inr ⟨d, List.mem_cons_self d rest, hmid⟩
        · exact Or.inr ⟨d', List.mem_cons_of_mem d hd', hw⟩
      · rintro (hw | ⟨d', hd', hw⟩)
        · exact Or.inl (Or.inl hw)
        · rcases List.mem_cons.mp hd' with rfl | hd'
          · refine Or.inl (Or.inr ?_)
            rw [hmid] at hw
            injection hw with hw
            exact hw.symm
          · exact Or.inr ⟨d', hd', hw⟩
    · intro p hp
      rcases hmem p hp with hp' | ⟨d', hd', hw, hpd⟩
      · rcases mem_dictInsert hp' with hp'' | ⟨hpk, hpd⟩
        · exact Or.inl hp''
        · refine Or.inr ⟨d, List.mem_cons_self d rest, ?_, hpd⟩
          rw [hmid, hpk]
      · exact Or.inr ⟨d', List.mem_cons_of_mem d hd', hw, hpd⟩

lemma update_recruitment_announces_single (coll : Coll) (a : Announce) :
    (update_recruitment_announces coll [a]).1
      = (coll.updateOneById a.id
          [("author", a.authorId), ("time", a.createdAt)] true).1 := by
  unfold update_recruitment_announces
  simp [List.foldl_cons]

lemma update_accounts_data_single (coll : Coll) (m : Member)
    (fs : List (String × Value)) :
    (update_accounts_data coll [(m, fs)]).1
      = (coll.updateOneById m.id fs true).1 := by
  unfold update_accounts_data
  simp [List.foldl_cons]

lemma update_automessages_single (coll : Coll) (idv : Value)
    (fs : List (String × Value)) :
    update_automessages coll [(idv, fs)] = (coll.updateOneById idv fs false).1 := by
  unfold update_automessages
  simp [List.foldl_cons]

lemma filterMap_get_id_project (c : Coll) :
    (c.map (fun d => d.project ["_id"])).filterMap (fun d => Doc.get d "_id")
      = c.filterMap (fun d => Doc.get d "_id") := by
  induction c with
  | nil => rfl
  | cons d rest ih =>
    cases hget : Doc.get d "_id" with
    | none => simp [List.filterMap_cons, project_get_id, hget, ih]
    | some v => simp [List.filterMap_cons, project_get_id, hget, ih]

lemma get_metadata_absent (coll : Coll) (k : Value)
    (h : ∀ d ∈ coll, ¬ (Doc.get d "_id" = some k)) :
    get_metadata coll k = .ok none := by
  unfold get_metadata Coll.findOne
  have hf : coll.filter (fun d => (Filter.idEq k).matches d) = [] := by
    rw [List.filter_eq_nil_iff]
    intro d hd
    simp [Filter.matches, h d hd]
  simp [hf]

/-! ## Calendar lemmas -/

lemma leapsBefore_step (y : Int) :
    leapsBefore y - leapsBefore (y - 1) = if isLeap y then 1 else 0 := by
  unfold leapsBefore isLeap
  by_cases h4 : y % 4 = 0 <;> by_cases h100 : y % 100 = 0 <;>
    by_cases h400 : y % 400 = 0 <;>
    simp [h4, h100, h400] <;> omega

lemma leapsBefore_step_nonneg (y : Int) :
    leapsBefore (y - 1) ≤ leapsBefore y := by
  have h := leapsBefore_step y
  split at h <;> omega

lemma daysInMonth_ge (y : Int) (m : Nat) (h1 : 1 ≤ m) (h2 : m ≤ 12) :
    28 ≤ daysInMonth y m := by
  interval_cases m <;> simp only [daysInMonth] <;> (try split_ifs) <;> omega

lemma daysInMonth_le (y : Int) (m : Nat) : daysInMonth y m ≤ 31 := by
  unfold daysInMonth
  split <;> first | omega | (split <;> omega)

lemma daysInMonth_ne_two (y y' : Int) (m : Nat) (h1 : 1 ≤ m) (h2 : m ≤ 12)
    (hm : m ≠ 2) : daysInMonth y m = daysInMonth y' m := by
  interval_cases m <;> first | exact absurd rfl hm | rfl

lemma daysBeforeMonth_succ (y : Int) (m : Nat) (h1 : 1 ≤ m) (h2 : m ≤ 11) :
    daysBeforeMonth y (m + 1) = daysBeforeMonth y m + daysInMonth y m := by
  interval_cases m <;>
    simp [daysBeforeMonth, monthOffset, daysInMonth] <;>
    split_ifs <;> omega

lemma subYears_toOrdinal_le (d : Date) :
    (subYearsDate d).toOrdinal ≤ d.toOrdinal - 364 := by
  have hstep : leapsBefore (d.year - 1 - 1) ≤ leapsBefore (d.year - 1) :=
    leapsBefore_step_nonneg (d.year - 1)
  unfold subYearsDate Date.toOrdinal daysBeforeMonth
  simp only
  split_ifs <;> omega

lemma iterate_toOrdinal_le (d : Date) :
    ∀ j : Nat, (subYearsDate^[j] d).toOrdinal ≤ d.toOrdinal - 364 * j := by
  intro j
  induction j with
  | zero => simp
  | succ j ih =>
    rw [Function.iterate_succ_apply']
    have h := subYears_toOrdinal_le (subYearsDate^[j] d)
    push_cast
    push_cast at ih
    omega

lemma subYears_valid {d : Date} (h : d.Valid) : (subYearsDate d).Valid := by
  obtain ⟨h1, h2, h3, h4⟩ := h
  have h28 := daysInMonth_ge (d.year - 1) d.month h1 h2
  refine ⟨h1, h2, ?_, ?_⟩
  · simp only [subYearsDate]
    omega
  · simp only [subYearsDate]
    exact Nat.min_le_right _ _

lemma winInv_init {d : Date} (h : d.Valid) : WinInv d (addDay d) := by
  obtain ⟨h1, h2, h3, h4⟩ := h
  have h28 := daysInMonth_ge d.year d.month h1 h2
  unfold addDay WinInv
  by_cases hlt : d.day < daysInMonth d.year d.month
  · rw [if_pos hlt]
    left
    exact ⟨rfl, rfl, Or.inr rfl⟩
  · rw [if_neg hlt]
    by_cases hm : d.month < 12
    · rw [if_pos hm]
      right; left
      exact ⟨rfl, rfl, rfl, h1, by omega, by omega, h4, fun _ => by omega⟩
    · rw [if_neg hm]
      right; right
      have hm12 : d.month = 12 := by omega
      have hd31 : d.day = 31 := by
        have hdim : daysInMonth d.year d.month = 31 := by rw [hm12]; rfl
        omega
      exact ⟨rfl, rfl, rfl, hm12, hd31⟩

lemma winInv_step {a b : Date} (ha : a.Valid) (h : WinInv a b) :
    WinInv (subYearsDate a) (subYearsDate b) := by
  obtain ⟨ha1, ha2, ha3, ha4⟩ := ha
  rcases h with ⟨hy, hm, hd⟩ | ⟨hy, hm, hd, h1, h2, h3, h4, h5⟩ |
    ⟨hy, hm, hd, hm12, hd31⟩
  · left
    refine ⟨by simp [subYearsDate, hy], by simp [subYearsDate, hm], ?_⟩
    simp only [subYearsDate, hy, hm]
    omega
  · right; left
    have h28 : 28 ≤ daysInMonth (a.year - 1) a.month :=
      daysInMonth_ge _ _ h1 (by omega)
    have h28b : 28 ≤ daysInMonth (b.year - 1) b.month :=
      daysInMonth_ge _ _ (by omega) (by omega)
    refine ⟨by simp [subYearsDate, hy], by simp [subYearsDate, hm],
      ?_, h1, h2, ?_, ?_, ?_⟩
    · simp only [subYearsDate]
      omega
    · simp only [subYearsDate]
      by_cases hm2 : a.month = 2
      · have h29 : daysInMonth (a.year - 1) a.month ≤ 31 := daysInMonth_le _ _
        have h29' : daysInMonth (a.year - 1) a.month ≤ 29 := by
          rw [hm2]
          simp only [daysInMonth]
          split <;> omega
        have h5' := h5 hm2
        omega
      · have heq : daysInMonth (a.year - 1) a.month
            = daysInMonth a.year a.month :=
          daysInMonth_ne_two _ _ a.month h1 (by omega) hm2
        omega
    · simp only [subYearsDate]
      exact Nat.min_le_right _ _
    · intro hm2
      simp only [subYearsDate]
      have h5' := h5 hm2
      omega
  · right; right
    have hda : daysInMonth (a.year - 1) 12 = 31 := rfl
    have hdb : daysInMonth (b.year - 1) 1 = 31 := rfl
    refine ⟨?_, ?_, ?_, ?_, ?_⟩
    · simp only [subYearsDate, hy]
      omega
    · simp only [subYearsDate, hm]
    · simp only [subYearsDate, hm, hd, hdb]
      omega
    · simp only [subYearsDate, hm12]
    · simp only [subYearsDate, hm12, hd31, hda]
      omega

lemma winInv_ord {a b : Date} (ha : a.Valid) (h : WinInv a b) :
    a.toOrdinal ≤ b.toOrdinal ∧ b.toOrdinal ≤ a.toOrdinal + 2 := by
  obtain ⟨ha1, ha2, ha3, ha4⟩ := ha
  rcases h with ⟨hy, hm, hd⟩ | ⟨hy, hm, hd, h1, h2, h3, h4, h5⟩ |
    ⟨hy, hm, hd, hm12, hd31⟩
  · unfold Date.toOrdinal
    rw [hy, hm]
    omega
  · have hsucc := daysBeforeMonth_succ a.year a.month h1 h2
    unfold Date.toOrdinal
    rw [hy, hm, hd, hsucc]
    omega
  · have hstep := leapsBefore_step a.year
    unfold Date.toOrdinal
    rw [hy, hm, hd, hm12, hd31]
    have hby : a.year + 1 - 1 = a.year := by omega
    rw [hby]
    simp only [daysBeforeMonth, monthOffset]
    split_ifs at hstep ⊢ <;> simp_all <;> omega

/-! ## Anniversary-loop lemmas -/

lemma ts_midnight (a : Date) :
    to_timestamp (midnight a) = 86400 * a.toOrdinal := by
  simp [to_timestamp, midnight]

lemma dtle_midnight_ord {M : DateTime} {a : Date} (h : M.le (midnight a)) :
    M.date.toOrdinal ≤ a.toOrdinal := by
  unfold DateTime.le at h
  rw [ts_midnight] at h
  unfold to_timestamp at h
  omega

lemma dtle_midnight_mono {M : DateTime} {d d' : Date}
    (hord : d'.toOrdinal ≤ d.toOrdinal) (h : M.le (midnight d')) :
    M.le (midnight d) := by
  unfold DateTime.le at h ⊢
  rw [ts_midnight] at h ⊢
  omega

lemma valid_iterate {R : Date} (hval : R.Valid) (j : Nat) :
    (subYearsDate^[j] R).Valid := by
  induction j with
  | zero => exact hval
  | succ j ih =>
    rw [Function.iterate_succ_apply']
    exact subYears_valid ih

lemma winInv_iterate {R : Date} (hval : R.Valid) (j : Nat) :
    WinInv (subYearsDate^[j] (subYearsDate R))
      (subYearsDate^[j] (addDay (subYearsDate R))) := by
  induction j with
  | zero => exact winInv_init (subYears_valid hval)
  | succ j ih =>
    rw [Function.iterate_succ_apply', Function.iterate_succ_apply']
    exact winInv_step (valid_iterate (subYears_valid hval) j) ih

lemma range_matches_iff (field : String) (lo hi : Int) (d : Doc) :
    (Filter.range field lo hi).matches d = true ↔
      ∃ z : Int, Doc.get d field = some (Value.vint z) ∧ lo < z ∧ z < hi := by
  simp only [Filter.matches]
  cases hg : Doc.get d field with
  | none => simp [hg]
  | some v =>
    cases v with
    | vint z =>
      simp only [Bool.and_eq_true, decide_eq_true_eq]
      constructor
      · rintro ⟨hlo, hhi⟩
        exact ⟨z, rfl, hlo, hhi⟩
      · rintro ⟨z', hz', hlo, hhi⟩
        have hzz : z = z' := by
          injection hz' with hz2
          injection hz2
        rw [hzz]
        exact ⟨hlo, hhi⟩
    | vstr s => simp [hg]

lemma matchWin_iff (coll : Coll) (a b : Date) (w : Value) :
    matchWin coll a b w ↔ ∃ d ∈ coll,
      (∃ z : Int, Doc.get d "creation_date" = some (Value.vint z) ∧
        to_timestamp (midnight a) < z ∧ z < to_timestamp (midnight b)) ∧
      Doc.get d "_id" = some w := by
  unfold matchWin
  constructor <;> rintro ⟨d, hd, hm, hw⟩
  · exact ⟨d, hd, (range_matches_iff _ _ _ d).mp hm, hw⟩
  · exact ⟨d, hd, (range_matches_iff _ _ _ d).mpr hm, hw⟩

lemma matchWin_iff_proj (coll : Coll) (a b : Date) (w : Value) :
    (∃ d' ∈ coll.findProj
        (.range "creation_date" (to_timestamp (midnight a))
          (to_timestamp (midnight b))) ["_id", "display_name"],
      Doc.get d' "_id" = some w) ↔ matchWin coll a b w := by
  unfold matchWin
  constructor
  · rintro ⟨d', hd', hw⟩
    rcases mem_findProj.mp hd' with ⟨d, hdm, hmt, rfl⟩
    rw [project_get_id] at hw
    exact ⟨d, hdm, hmt, hw⟩
  · rintro ⟨d, hdm, hmt, hw⟩
    refine ⟨Doc.project d ["_id", "display_name"],
      mem_findProj.mpr ⟨d, hdm, hmt, rfl⟩, ?_⟩
    rw [project_get_id]
    exact hw

lemma processAccounts_ok (k : Nat) :
    ∀ (docs : List Doc) (bs : Buckets) (ns : List Value),
      (∀ d ∈ docs, (Doc.get d "_id").isSome ∧
        (Doc.get d "display_name").isSome) →
      ∃ bs' ns', processAccounts docs k bs ns = .ok (bs', ns') ∧
        (∀ j w, inBucket bs' j w ↔ inBucket bs j w ∨
          (j = k ∧ ∃ d ∈ docs, Doc.get d "_id" = some w)) ∧
        (∀ j, (bs'.lookup j).isSome ↔ (bs.lookup j).isSome ∨
          (j = k ∧ docs ≠ [])) := by
  intro docs
  induction docs with
  | nil =>
    intro bs ns _
    exact ⟨bs, ns, rfl, fun j w => by simp, fun j => by simp⟩
  | cons d ds ih =>
    intro bs ns h
    obtain ⟨hid, hname⟩ := h d (List.mem_cons_self d ds)
    obtain ⟨idv, hidv⟩ := Option.isSome_iff_exists.mp hid
    obtain ⟨nv, hnv⟩ := Option.isSome_iff_exists.mp hname
    obtain ⟨bs', ns', heq, hmem, hsome⟩ :=
      ih (bucketsAppend bs k idv) (ns ++ [nv])
        (fun d' hd' => h d' (List.mem_cons_of_mem d hd'))
    refine ⟨bs', ns', ?_, ?_, ?_⟩
    · unfold processAccounts
      rw [hidv, hnv]
      exact heq
    · intro j w
      rw [hmem j w, inBucket_bucketsAppend]
      constructor
      · rintro ((hw | ⟨rfl, rfl⟩) | ⟨rfl, d', hd', hw⟩)
        · exact Or.inl hw
        · exact Or.inr ⟨rfl, d, List.mem_cons_self d ds, hidv⟩
        · exact Or.inr ⟨rfl, d', List.mem_cons_of_mem d hd', hw⟩
      · rintro (hw | ⟨rfl, d', hd', hw⟩)
        · exact Or.inl (Or.inl hw)
        · rcases List.mem_cons.mp hd' with rfl | hd'
          · refine Or.inl (Or.inr ⟨rfl, ?_⟩)
            rw [hidv] at hw
            injection hw with hw
            exact hw.symm
          · exact Or.inr ⟨rfl, d', hd', hw⟩
    · intro j
      rw [hsome j, lookup_isSome_bucketsAppend]
      constructor
      · rintro ((hw | rfl) | ⟨rfl, -⟩)
        · exact Or.inl hw
        · exact Or.inr ⟨rfl, by simp⟩
        · exact Or.inr ⟨rfl, by simp⟩
      · rintro (hw | ⟨rfl, -⟩)
        · exact Or.inl (Or.inl hw)
        · exact Or.inl (Or.inr rfl)

/-- The main loop invariant of `get_anniversary_account_ids`: with enough
fuel the loop returns, runs for exactly the initial segment of years whose
anniversary day lies at or after the minimum creation date, and buckets
exactly the accounts matching each year's strict timestamp window. -/
lemma annivLoop_ok (coll : Coll) (M : DateTime)
    (hW : ∀ d ∈ coll, (Doc.get d "_id").isSome ∧
      (Doc.get d "display_name").isSome) :
    ∀ (fuel : Nat) (a b : Date) (k : Nat) (bs : Buckets) (ns : List Value),
      (a.toOrdinal + 365 - M.date.toOrdinal).toNat < fuel →
      ∃ bs' ns' n,
        annivLoop coll M fuel a b k bs ns = .ok (bs', ns', k + n) ∧
        (∀ i, i < n → M.le (midnight (subYearsDate^[i] a))) ∧
        ¬ M.le (midnight (subYearsDate^[n] a)) ∧
        (∀ j w, inBucket bs' j w ↔ inBucket bs j w ∨
          ∃ i, i < n ∧ j = k + i ∧
            matchWin coll (subYearsDate^[i] a) (subYearsDate^[i] b) w) ∧
        (∀ j, (bs'.lookup j).isSome ↔ (bs.lookup j).isSome ∨
          ∃ i, i < n ∧ j = k + i ∧
            ∃ w, matchWin coll (subYearsDate^[i] a) (subYearsDate^[i] b) w) := by
  intro fuel
  induction fuel with
  | zero =>
    intro a b k bs ns hfuel
    omega
  | succ fuel ih =>
    intro a b k bs ns hfuel
    by_cases hM : M.le (midnight a)
    · have hordM : M.date.toOrdinal ≤ a.toOrdinal := dtle_midnight_ord hM
      have hsub : (subYearsDate a).toOrdinal ≤ a.toOrdinal - 364 :=
        subYears_toOrdinal_le a
      have hfuel' :
          ((subYearsDate a).toOrdinal + 365 - M.date.toOrdinal).toNat
            < fuel := by
        omega
      have hdocs : ∀ d' ∈ coll.findProj
          (.range "creation_date" (to_timestamp (midnight a))
            (to_timestamp (midnight b))) ["_id", "display_name"],
          (Doc.get d' "_id").isSome ∧ (Doc.get d' "display_name").isSome := by
        intro d' hd'
        rcases mem_findProj.mp hd' with ⟨d, hdm, -, rfl⟩
        constructor
        · rw [project_get_id]
          exact (hW d hdm).1
        · rw [project_get_of_mem _ _ (by simp)]
          exact (hW d hdm).2
      obtain ⟨bs₂, ns₂, hproc, hpmem, hpsome⟩ :=
        processAccounts_ok k _ bs ns hdocs
      obtain ⟨bs', ns', n, hrec, hconds, hstop, hmem, hsome⟩ :=
        ih (subYearsDate a) (subYearsDate b) (k + 1) bs₂ ns₂ hfuel'
      rw [show k + 1 + n = k + (n + 1) from by omega] at hrec
      refine ⟨bs', ns', n + 1, ?_, ?_, ?_, ?_, ?_⟩
      · unfold annivLoop
        rw [if_pos hM, hproc]
        exact hrec
      · intro i hi
        cases i with
        | zero => simpa using hM
        | succ i =>
          rw [Function.iterate_succ_apply]
          exact hconds i (by omega)
      · rw [Function.iterate_succ_apply]
        exact hstop
      · intro j w
        rw [hmem j w]
        constructor
        · rintro (hb2 | ⟨i, hi, rfl, hmw⟩)
          · rcases (hpmem j w).mp hb2 with hb3 | ⟨rfl, hex⟩
            · exact Or.inl hb3
            · refine Or.inr ⟨0, by omega, by simp, ?_⟩
              rw [Function.iterate_zero_apply, Function.iterate_zero_apply]
              exact (matchWin_iff_proj coll a b w).mp hex
          · refine Or.inr ⟨i + 1, by omega, by omega, ?_⟩
            rw [Function.iterate_succ_apply, Function.iterate_succ_apply]
            exact hmw
        · rintro (hb | ⟨i, hi, rfl, hmw⟩)
          · exact Or.inl ((hpmem j w).mpr (Or.inl hb))
          · cases i with
            | zero =>
              refine Or.inl ((hpmem (k + 0) w).mpr (Or.inr ⟨by simp, ?_⟩))
              apply (matchWin_iff_proj coll a b w).mpr
              rw [Function.iterate_zero_apply, Function.iterate_zero_apply]
                at hmw
              exact hmw
            | succ i =>
              refine Or.inr ⟨i, by omega, by omega, ?_⟩
              rw [Function.iterate_succ_apply, Function.iterate_succ_apply]
                at hmw
              exact hmw
      · intro j
        rw [hsome j]
        constructor
        · rintro (hb2 | ⟨i, hi, rfl, w, hmw⟩)
          · rcases (hpsome j).mp hb2 with hb3 | ⟨rfl, hne⟩
            · exact Or.inl hb3
            · rcases List.exists_mem_of_ne_nil _ hne with ⟨d', hd'⟩
              obtain ⟨idv, hidv⟩ :=
                Option.isSome_iff_exists.mp (hdocs d' hd').1
              refine Or.inr ⟨0, by omega, by simp, idv, ?_⟩
              rw [Function.iterate_zero_apply, Function.iterate_zero_apply]
              exact (matchWin_iff_proj coll a b idv).mp ⟨d', hd', hidv⟩
          · refine Or.inr ⟨i + 1, by omega, by omega, w, ?_⟩
            rw [Function.iterate_succ_apply, Function.iterate_succ_apply]
            exact hmw
        · rintro (hb | ⟨i, hi, rfl, w, hmw⟩)
          · exact Or.inl ((hpsome j).mpr (Or.inl hb))
          · cases i with
            | zero =>
              refine Or.inl ((hpsome (k + 0)).mpr (Or.inr ⟨by simp, ?_⟩))
              rw [Function.iterate_zero_apply, Function.iterate_zero_apply]
                at hmw
              obtain ⟨d', hd', -⟩ := (matchWin_iff_proj coll a b w).mpr hmw
              exact List.ne_nil_of_mem hd'
            | succ i =>
              refine Or.inr ⟨i, by omega, by omega, w, ?_⟩
              rw [Function.iterate_succ_apply, Function.iterate_succ_apply]
                at hmw
              exact hmw
    · refine ⟨bs, ns, 0, ?_, ?_, ?_, ?_, ?_⟩
      · unfold annivLoop
        rw [if_neg hM]
        rfl
      · intro i hi
        exact absurd hi (Nat.not_lt_zero i)
      · rw [Function.iterate_zero_apply]
        exact hM
      · intro j w
        simp
      · intro j
        simp

lemma leapsBefore_mono {y y' : Int} (h : y ≤ y') :
    leapsBefore y ≤ leapsBefore y' := by
  have hstep : ∀ n : Int, y ≤ n →
      leapsBefore y ≤ leapsBefore n → leapsBefore y ≤ leapsBefore (n + 1) := by
    intro n _ hle
    have h1 := leapsBefore_step (n + 1)
    have h2 : n + 1 - 1 = n := by omega
    rw [h2] at h1
    split at h1 <;> omega
  exact @Int.le_induction (fun n => leapsBefore y ≤ leapsBefore n) y
    (le_refl _) hstep y' h

lemma monthOffset_nonneg (m : Nat) : 0 ≤ monthOffset m := by
  unfold monthOffset
  split <;> omega

lemma daysBeforeMonth_nonneg (y : Int) (m : Nat) :
    0 ≤ daysBeforeMonth y m := by
  unfold daysBeforeMonth
  have := monthOffset_nonneg m
  split <;> omega

lemma daysBeforeMonth_day_le {y : Int} {m d : Nat} (h1 : 1 ≤ m)
    (h2 : m ≤ 12) (h4 : d ≤ daysInMonth y m) :
    (daysBeforeMonth y m + d : Int)
      ≤ 365 + (if isLeap y then 1 else 0) := by
  by_cases hL : isLeap y <;> interval_cases m <;>
    simp [daysBeforeMonth, monthOffset, daysInMonth, hL] at h4 ⊢ <;> omega

/-- A valid date whose midnight lies at or after a valid instant of year
at least 2 itself has year at least 2, so Python's year decrement from it
lands at year at least 1, inside `datetime`'s range. -/
lemma year_ge_two_of_cond {M : DateTime} {a : Date}
    (hMval : M.date.Valid) (hMy : 2 ≤ M.date.year) (hval : a.Valid)
    (hcond : M.le (midnight a)) : 2 ≤ a.year := by
  by_contra hlt
  push_neg at hlt
  have hord : M.date.toOrdinal ≤ a.toOrdinal := dtle_midnight_ord hcond
  obtain ⟨m1, m2, m3, m4⟩ := hMval
  obtain ⟨a1, a2, a3, a4⟩ := hval
  have hub : a.toOrdinal ≤ 365 * (a.year - 1) + leapsBefore (a.year - 1)
      + 365 + (if isLeap a.year then 1 else 0) := by
    unfold Date.toOrdinal
    have := daysBeforeMonth_day_le a1 a2 a4
    omega
  have hlb : 365 * (M.date.year - 1) + leapsBefore (M.date.year - 1) + 1
      ≤ M.date.toOrdinal := by
    unfold Date.toOrdinal
    have := daysBeforeMonth_nonneg M.date.year M.date.month
    omega
  have hmono : leapsBefore a.year ≤ leapsBefore (M.date.year - 1) :=
    leapsBefore_mono (by omega)
  have hstep := leapsBefore_step a.year
  split_ifs at hub hstep <;> omega

/-- Under the anniversary theorems' date hypotheses, every anniversary
day the loop still processes (its midnight at or after the minimum
creation date) and its paired upper-bound day have year at least 2:
the `relativedelta(years=1)` steps the Python loop then takes from them
land at year at least 1, inside `datetime`'s range, so the loop never
raises and the total model agrees with the code on this whole domain. -/
lemma loop_steps_in_range (R M : DateTime)
    (hRval : R.date.Valid) (hMval : M.date.Valid) (hMy : 2 ≤ M.date.year)
    (i : Nat)
    (hc : M.le (midnight (subYearsDate^[i] (subYearsDate R.date)))) :
    2 ≤ (subYearsDate^[i] (subYearsDate R.date)).year ∧
    2 ≤ (subYearsDate^[i] (addDay (subYearsDate R.date))).year := by
  have hvalid := valid_iterate (subYears_valid hRval) i
  have ha : 2 ≤ (subYearsDate^[i] (subYearsDate R.date)).year :=
    year_ge_two_of_cond hMval hMy hvalid hc
  refine ⟨ha, ?_⟩
  rcases winInv_iterate hRval i with ⟨hy, -⟩ | ⟨hy, -⟩ | ⟨hy, -⟩ <;> omega

lemma nthAnniversary_succ (R : Date) (i : Nat) :
    nthAnniversary R (i + 1) = subYearsDate^[i] (subYearsDate R) := by
  unfold nthAnniversary
  rw [Function.iterate_succ_apply]

lemma nthUpperBound_succ (R : Date) (i : Nat) :
    nthUpperBound R (i + 1) = subYearsDate^[i] (addDay (subYearsDate R)) := by
  unfold nthUpperBound
  simp

lemma cond_lt_iff (M : DateTime) (a : Date) (n : Nat)
    (hconds : ∀ i, i < n → M.le (midnight (subYearsDate^[i] a)))
    (hstop : ¬ M.le (midnight (subYearsDate^[n] a))) (i : Nat) :
    i < n ↔ M.le (midnight (subYearsDate^[i] a)) := by
  constructor
  · exact hconds i
  · intro hc
    by_contra hlt
    push_neg at hlt
    apply hstop
    refine dtle_midnight_mono ?_ hc
    rw [show subYearsDate^[i] a = subYearsDate^[i - n] (subYearsDate^[n] a)
      from by rw [← Function.iterate_add_apply]; congr 1; omega]
    have h := iterate_toOrdinal_le (subYearsDate^[n] a) (i - n)
    have h0 : (0 : Int) ≤ 364 * (i - n : Nat) := by positivity
    omega

lemma floorYears_eq (M : DateTime) (R : Date) (n : Nat)
    (hconds : ∀ i, i < n →
      M.le (midnight (subYearsDate^[i] (subYearsDate R))))
    (hstop : ¬ M.le (midnight (subYearsDate^[n] (subYearsDate R)))) :
    floorYearsBetween M R = n := by
  unfold floorYearsBetween
  rw [Nat.findGreatest_eq_iff]
  refine ⟨?_, ?_, ?_⟩
  · rcases Nat.eq_zero_or_pos n with rfl | hpos
    · exact Nat.zero_le _
    · have hc := hconds (n - 1) (by omega)
      have hord : M.date.toOrdinal
          ≤ (subYearsDate^[n - 1] (subYearsDate R)).toOrdinal :=
        dtle_midnight_ord hc
      have hit := iterate_toOrdinal_le (subYearsDate R) (n - 1)
      unfold annivFuel
      have hcast : ((n - 1 : Nat) : Int) = (n : Int) - 1 := by
        push_cast [hpos]
        omega
      rw [hcast] at hit
      omega
  · intro hn0
    refine ⟨by omega, ?_⟩
    have hc := hconds (n - 1) (by omega)
    unfold nthAnniversary
    rw [show subYearsDate^[n] R = subYearsDate^[n - 1] (subYearsDate R)
      from by
        conv_lhs => rw [show n = (n - 1) + 1 from by omega]
        rw [Function.iterate_succ_apply]]
    exact hc
  · intro m hm _
    rintro ⟨hm1, hcond⟩
    unfold nthAnniversary at hcond
    have hmn : subYearsDate^[m] R
        = subYearsDate^[m - (n + 1)] (subYearsDate^[n + 1] R) := by
      rw [← Function.iterate_add_apply]
      congr 1
      omega
    have hord : (subYearsDate^[m] R).toOrdinal
        ≤ (subYearsDate^[n + 1] R).toOrdinal := by
      rw [hmn]
      have h := iterate_toOrdinal_le (subYearsDate^[n + 1] R) (m - (n + 1))
      have h0 : (0 : Int) ≤ 364 * (m - (n + 1) : Nat) := by positivity
      omega
    have hc : M.le (midnight (subYearsDate^[n + 1] R)) :=
      dtle_midnight_mono hord hcond
    rw [Function.iterate_succ_apply] at hc
    exact hstop hc

lemma windows_disjoint {R : Date} (hval : R.Valid) {i₁ i₂ : Nat}
    (hlt : i₁ < i₂) (z : Int)
    (h1a : to_timestamp (midnight (subYearsDate^[i₁] (subYearsDate R))) < z)
    (h2b : z < to_timestamp
      (midnight (subYearsDate^[i₂] (addDay (subYearsDate R))))) :
    False := by
  have hvalid := valid_iterate (subYears_valid hval) i₂
  have hord2 := winInv_ord hvalid (winInv_iterate hval i₂)
  have hgap : (subYearsDate^[i₂] (subYearsDate R)).toOrdinal
      ≤ (subYearsDate^[i₁] (subYearsDate R)).toOrdinal
        - 364 * ((i₂ - i₁ : Nat) : Int) := by
    rw [show subYearsDate^[i₂] (subYearsDate R)
        = subYearsDate^[i₂ - i₁] (subYearsDate^[i₁] (subYearsDate R))
      from by rw [← Function.iterate_add_apply]; congr 1; omega]
    exact iterate_toOrdinal_le _ _
  have h364 : (1 : Int) ≤ ((i₂ - i₁ : Nat) : Int) := by
    have : 1 ≤ i₂ - i₁ := by omega
    exact_mod_cast this
  rw [ts_midnight] at h1a h2b
  omega

/-- C4 (amended): every repository update operation modifies only the
supplied fields of the entity with the given identifier.
`update_metadata`, `update_recruitment_announces` and
`update_accounts_data` are upserts: with no existing entity they create
it.  `update_job_data` and `update_automessages` pass MongoDB's default
`upsert=False`: with no existing entity they leave the collection
unchanged. -/
theorem repo_update_partial_upsert (coll : Coll) (idv v : Value)
    (fs : List (String × Value)) (a : Announce) (m : Member)
    (pre post : Coll) (d : Doc)
    (ha : a.id = idv) (hm : m.id = idv) :
    (¬ coll.hasId idv →
      update_metadata coll idv v = coll ++ [[("_id", idv), ("data", v)]] ∧
      (update_recruitment_announces coll [a]).1
        = coll ++ [[("_id", idv), ("author", a.authorId),
            ("time", a.createdAt)]] ∧
      (update_accounts_data coll [(m, fs)]).1
        = coll ++ [Doc.setFields [("_id", idv)] fs] ∧
      update_job_data coll idv fs = coll ∧
      update_automessages coll [(idv, fs)] = coll) ∧
    (coll = pre ++ d :: post →
      (∀ d' ∈ pre, ¬ (Doc.get d' "_id" = some idv)) →
      Doc.get d "_id" = some idv →
      update_metadata coll idv v = pre ++ d.setFields [("data", v)] :: post ∧
      (update_recruitment_announces coll [a]).1
        = pre ++ d.setFields
            [("author", a.authorId), ("time", a.createdAt)] :: post ∧
      (update_accounts_data coll [(m, fs)]).1
        = pre ++ d.setFields fs :: post ∧
      update_job_data coll idv fs = pre ++ d.setFields fs :: post ∧
      update_automessages coll [(idv, fs)] = pre ++ d.setFields fs :: post) ∧
    (∀ gs : List (String × Value), ∀ k', k' ∉ gs.map Prod.fst →
      Doc.get (d.setFields gs) k' = Doc.get d k') := by
  refine ⟨?_, ?_, fun gs k' hk' => setFields_get_not_mem d gs hk'⟩
  · intro habs
    refine ⟨?_, ?_, ?_, ?_, ?_⟩
    · unfold update_metadata
      rw [updateOneById_not_hasId_true coll idv _ habs]
      rfl
    · rw [update_recruitment_announces_single, ha,
        updateOneById_not_hasId_true coll idv _ habs]
      rfl
    · rw [update_accounts_data_single, hm,
        updateOneById_not_hasId_true coll idv _ habs]
    · unfold update_job_data
      rw [updateOneById_not_hasId_false coll idv _ habs]
    · rw [update_automessages_single,
        updateOneById_not_hasId_false coll idv _ habs]
  · intro hsplit hpre hd
    subst hsplit
    refine ⟨?_, ?_, ?_, ?_, ?_⟩
    · unfold update_metadata
      rw [updateOneById_present pre d post idv _ true hpre hd]
    · rw [update_recruitment_announces_single, ha,
        updateOneById_present pre d post idv _ true hpre hd]
    · rw [update_accounts_data_single, hm,
        updateOneById_present pre d post idv _ true hpre hd]
    · unfold update_job_data
      rw [updateOneById_present pre d post idv _ false hpre hd]
    · rw [update_automessages_single,
        updateOneById_present pre d post idv _ false hpre hd]

/-- C4 witness: a fresh metadata upsert inserts, a fresh job-data update
does not, and an existing metadata entry is modified in place. -/
theorem repo_update_partial_upsert_witness :
    update_metadata [] (Value.vint 7) (Value.vstr "V")
      = [[("_id", Value.vint 7), ("data", Value.vstr "V")]] ∧
    update_job_data [] (Value.vint 7) [("score", Value.vint 3)] = [] ∧
    update_metadata [[("_id", Value.vint 7), ("score", Value.vint 1)]]
        (Value.vint 7) (Value.vstr "V")
      = [Doc.setFields [("_id", Value.vint 7), ("score", Value.vint 1)]
          [("data", Value.vstr "V")]] :=
  ⟨((repo_update_partial_upsert [] (Value.vint 7) (Value.vstr "V")
      [("score", Value.vint 3)]
      (Announce.mk (Value.vint 7) (Value.vint 1) (Value.vint 2))
      (Member.mk (Value.vint 7)) [] [] [] rfl rfl).1 (by decide)).1,
   ((repo_update_partial_upsert [] (Value.vint 7) (Value.vstr "V")
      [("score", Value.vint 3)]
      (Announce.mk (Value.vint 7) (Value.vint 1) (Value.vint 2))
      (Member.mk (Value.vint 7)) [] [] [] rfl rfl).1 (by decide)).2.2.2.1,
   ((repo_update_partial_upsert
      [[("_id", Value.vint 7), ("score", Value.vint 1)]]
      (Value.vint 7) (Value.vstr "V") [("score", Value.vint 3)]
      (Announce.mk (Value.vint 7) (Value.vint 1) (Value.vint 2))
      (Member.mk (Value.vint 7)) [] []
      [("_id", Value.vint 7), ("score", Value.vint 1)] rfl rfl).2.1
      rfl (by decide) rfl).1⟩

/-- C4 fails as stated: `update_job_data` and `update_automessages` use
`update_one` without `upsert=True`, so calling them with an identifier
that has no existing entity creates nothing. -/
theorem update_job_data_counterexample :
    update_job_data [] (Value.vint 1) [("channel_id", Value.vint 2)] = [] ∧
    update_automessages [] [(Value.vint 1, [("message", Value.vstr "m")])]
      = [] ∧
    ¬ Coll.hasId
        (update_job_data [] (Value.vint 1) [("channel_id", Value.vint 2)])
        (Value.vint 1) :=
  ⟨rfl, rfl, by decide⟩

/-- C5: a record returned by `load_automessages` carries only keys from
the requested key subset, whatever extra fields the stored document has. -/
theorem load_automessages_key_subset (coll : Coll) (query : Filter)
    (data_keys : List String) :
    ∀ d ∈ load_automessages coll query data_keys, ∀ p ∈ d, p.1 ∈ data_keys := by
  intro d hd p hp
  unfold load_automessages at hd
  rcases List.mem_map.mp hd with ⟨d', _, rfl⟩
  rcases List.mem_filter.mp hp with ⟨_, hc⟩
  simpa using hc

/-- C5 witness: a stored document with an extra `_id` field is returned
with only the requested `message` key. -/
theorem load_automessages_key_subset_witness :
    (("message", Value.vstr "m") : String × Value).1 ∈ ["message"] :=
  load_automessages_key_subset
    [[("_id", Value.vint 1), ("message", Value.vstr "m")]] .all ["message"]
    [("message", Value.vstr "m")] (by decide)
    ("message", Value.vstr "m") (by decide)

/-- C6: updating a metadata key and reading it back returns the stored
value, and reading a key with no stored entry returns `None` rather than
raising. -/
theorem metadata_roundtrip (coll : Coll) (k v : Value) :
    get_metadata (update_metadata coll k v) k = .ok (some v) ∧
    ((∀ d ∈ coll, ¬ (Doc.get d "_id" = some k)) →
      get_metadata coll k = .ok none) :=
  ⟨get_metadata_roundtrip coll k v, get_metadata_absent coll k⟩

/-- C6 witness. -/
theorem metadata_roundtrip_witness :
    get_metadata (update_metadata [] (Value.vint 1) (Value.vstr "x"))
        (Value.vint 1) = .ok (some (Value.vstr "x")) ∧
    get_metadata ([] : Coll) (Value.vint 1) = .ok none :=
  ⟨(metadata_roundtrip [] (Value.vint 1) (Value.vstr "x")).1,
   (metadata_roundtrip [] (Value.vint 1) (Value.vstr "x")).2 (by decide)⟩

/-- C7: starting from a collection respecting MongoDB's unique-`_id`
invariant, any non-empty sequence of upserts with one identifier
(metadata values, recruitment announces, account data) leaves exactly one
stored entity for that identifier. -/
theorem upsert_idempotent_entity_count (coll : Coll) (idv : Value)
    (h : coll.countId idv ≤ 1) :
    (∀ vs : List Value, vs ≠ [] →
      Coll.countId (vs.foldl (fun c v => update_metadata c idv v) coll) idv
        = 1) ∧
    (∀ l : List Announce, l ≠ [] → (∀ a ∈ l, a.id = idv) →
      Coll.countId (update_recruitment_announces coll l).1 idv = 1) ∧
    (∀ ms : List (Member × List (String × Value)), ms ≠ [] →
      (∀ p ∈ ms, p.1.id = idv) → (∀ p ∈ ms, "_id" ∉ p.2.map Prod.fst) →
      Coll.countId (update_accounts_data coll ms).1 idv = 1) := by
  refine ⟨?_, ?_, ?_⟩
  · intro vs hne
    obtain ⟨v, rest, rfl⟩ := List.exists_cons_of_ne_nil hne
    simp only [List.foldl_cons]
    exact metadata_fold_countId idv rest _
      (countId_updateOneById_true_of_le_one coll idv _ (by simp) h)
  · intro l hne hall
    obtain ⟨a, rest, rfl⟩ := List.exists_cons_of_ne_nil hne
    unfold update_recruitment_announces
    simp only [List.foldl_cons]
    apply announces_fold_countId idv rest _
      (fun x hx => hall x (List.mem_cons_of_mem a hx))
    show Coll.countId (Coll.updateOneById coll a.id
      [("author", a.authorId), ("time", a.createdAt)] true).1 idv = 1
    rw [hall a (List.mem_cons_self a rest)]
    exact countId_updateOneById_true_of_le_one coll idv _ (by simp) h
  · intro ms hne hall hfs
    obtain ⟨p, rest, rfl⟩ := List.exists_cons_of_ne_nil hne
    unfold update_accounts_data
    simp only [List.foldl_cons]
    apply accounts_fold_countId idv rest _
      (fun x hx => hall x (List.mem_cons_of_mem p hx))
      (fun x hx => hfs x (List.mem_cons_of_mem p hx))
    show Coll.countId (Coll.updateOneById coll p.1.id p.2 true).1 idv = 1
    rw [hall p (List.mem_cons_self p rest)]
    exact countId_updateOneById_true_of_le_one coll idv _
      (hfs p (List.mem_cons_self p rest)) h

/-- C7 witness: two successive metadata upserts with the same key leave a
single entity. -/
theorem upsert_idempotent_entity_count_witness :
    Coll.countId
      (([Value.vstr "a", Value.vstr "b"]).foldl
        (fun c v => update_metadata c (Value.vint 5) v) []) (Value.vint 5)
      = 1 :=
  (upsert_idempotent_entity_count [] (Value.vint 5) (by decide)).1
    [Value.vstr "a", Value.vstr "b"] (by decide)

/-- C8: `get_unrecorded_members` returns exactly the members whose
identifier is absent from the account-data collection, preserving the
input order (the result is a `filter` of the input list). -/
theorem get_unrecorded_members_spec (coll : Coll) (members : List Member)
    (h : ∀ d ∈ coll, (Doc.get d "_id").isSome) :
    get_unrecorded_members coll members =
      .ok (members.filter (fun m =>
        decide (∀ d ∈ coll, ¬ (Doc.get d "_id" = some m.id)))) := by
  unfold get_unrecorded_members
  rw [findProj_all]
  have hproj : ∀ d' ∈ coll.map (fun d => d.project ["_id"]),
      (Doc.get d' "_id").isSome := by
    intro d' hd'
    rcases List.mem_map.mp hd' with ⟨d, hd, rfl⟩
    rw [project_get_id]
    exact h d hd
  rw [mapM_get_id _ hproj, filterMap_get_id_project]
  refine congrArg Except.ok (List.filter_congr ?_)
  intro m _
  have hmem : (coll.filterMap (fun d => Doc.get d "_id")).contains m.id = true
      ↔ ∃ d ∈ coll, Doc.get d "_id" = some m.id := by
    rw [List.elem_iff]
    exact List.mem_filterMap
  by_cases hc : ∃ d ∈ coll, Doc.get d "_id" = some m.id
  · rw [hmem.mpr hc]
    simp only [Bool.not_true]
    symm
    rw [decide_eq_false_iff_not]
    intro hall
    rcases hc with ⟨d, hd, hg⟩
    exact hall d hd hg
  · have hfalse : (coll.filterMap (fun d => Doc.get d "_id")).contains m.id
        = false := by
      rw [Bool.eq_false_iff]
      intro h1
      exact hc (hmem.mp h1)
    rw [hfalse]
    simp only [Bool.not_false]
    symm
    rw [decide_eq_true_eq]
    intro d hd hg
    exact hc ⟨d, hd, hg⟩

/-- C8 witness. -/
theorem get_unrecorded_members_spec_witness :
    get_unrecorded_members [[("_id", Value.vint 1)]]
        [Member.mk (Value.vint 1), Member.mk (Value.vint 2)] =
      .ok ([Member.mk (Value.vint 1), Member.mk (Value.vint 2)].filter
        (fun m => decide (∀ d ∈ [[("_id", Value.vint 1)]],
          ¬ (Doc.get d "_id" = some m.id)))) :=
  get_unrecorded_members_spec [[("_id", Value.vint 1)]]
    [Member.mk (Value.vint 1), Member.mk (Value.vint 2)] (by decide)

/-- C9: a missing host or database name is a construction-time
`ConnectionFailure`, while a failing liveness probe makes
`open_connection` return `false` and leave the manager disconnected. -/
theorem connector_errors (host dbname : Option String) :
    (pyFalsy host = true →
      connectorInit host dbname
        = .error "ConnectionFailure: no MongoDB host in environment") ∧
    (pyFalsy host = false → pyFalsy dbname = true →
      connectorInit host dbname
        = .error "ConnectionFailure: no MongoDB database name in environment") ∧
    (∀ m, connectorInit host dbname = .ok m →
      m.connected = false ∧
      (open_connection m false).2 = false ∧
      (open_connection m false).1.connected = false) := by
  refine ⟨?_, ?_, ?_⟩
  · intro h
    unfold connectorInit
    rw [if_pos h]
  · intro h1 h2
    unfold connectorInit
    rw [if_neg (by simp [h1]), if_pos h2]
  · intro m hm
    unfold connectorInit at hm
    by_cases h1 : pyFalsy host = true
    · rw [if_pos h1] at hm
      simp at hm
    · rw [if_neg h1] at hm
      by_cases h2 : pyFalsy dbname = true
      · rw [if_pos h2] at hm
        simp at hm
      · rw [if_neg h2] at hm
        injection hm with hm
        subst hm
        exact ⟨rfl, rfl, rfl⟩

/-- C9 witness. -/
theorem connector_errors_witness :
    connectorInit none (some "db")
      = .error "ConnectionFailure: no MongoDB host in environment" ∧
    (open_connection (MongoDBConnector.mk false false [] "h" "db") false).2
      = false :=
  ⟨(connector_errors none (some "db")).1 rfl,
   ((connector_errors (some "h") (some "db")).2.2
     (MongoDBConnector.mk false false [] "h" "db") rfl).2.1⟩

/-- C10: when `message_id` is among the requested keys and every stored
job document carries it, `load_pending_jobs_data` succeeds and returns the
map from each document's message identifier to its projected fields; with
`message_id` outside the requested keys it fails on a non-empty
collection. -/
theorem load_pending_jobs_data_spec (coll : Coll) (data_keys : List String)
    (hk : "message_id" ∈ data_keys)
    (hd : ∀ d ∈ coll, (Doc.get d "message_id").isSome) :
    (∃ m, load_pending_jobs_data coll data_keys = .ok m ∧
      (∀ w, (m.lookup w).isSome ↔
        ∃ d ∈ coll, Doc.get d "message_id" = some w) ∧
      (∀ p ∈ m, ∃ d ∈ coll,
        Doc.get d "message_id" = some p.1 ∧ p.2 = d.project data_keys)) ∧
    load_pending_jobs_data
        [[("_id", Value.vint 1), ("message_id", Value.vint 9),
          ("channel_id", Value.vint 3)]] ["channel_id"]
      = .error "KeyError: message_id" := by
  constructor
  · have hdocs : ∀ d' ∈ coll.findProj .all data_keys,
        (Doc.get d' "message_id").isSome := by
      intro d' hd'
      rcases mem_findProj.mp hd' with ⟨d, hdm, -, rfl⟩
      rw [project_get_of_mem _ _ hk]
      exact hd d hdm
    obtain ⟨m, hm, hsome, hmem⟩ := pending_foldlM_spec _ hdocs []
    refine ⟨m, hm, ?_, ?_⟩
    · intro w
      rw [hsome w]
      simp only [List.lookup_nil, Option.isSome_none, Bool.false_eq_true,
        false_or]
      constructor
      · rintro ⟨d', hd', hw⟩
        rcases mem_findProj.mp hd' with ⟨d, hdm, -, rfl⟩
        rw [project_get_of_mem _ _ hk] at hw
        exact ⟨d, hdm, hw⟩
      · rintro ⟨d, hdm, hw⟩
        refine ⟨d.project data_keys, mem_findProj.mpr ⟨d, hdm, rfl, rfl⟩, ?_⟩
        rw [project_get_of_mem _ _ hk]
        exact hw
    · intro p hp
      rcases hmem p hp with hfalse | ⟨d', hd', hw, hpd⟩
      · cases hfalse
      · rcases mem_findProj.mp hd' with ⟨d, hdm, -, rfl⟩
        rw [project_get_of_mem _ _ hk] at hw
        exact ⟨d, hdm, hw, hpd⟩
  · rfl

/-- C10 witness. -/
theorem load_pending_jobs_data_spec_witness :
    (∃ m, load_pending_jobs_data
        [[("_id", Value.vint 1), ("message_id", Value.vint 9)]]
        ["message_id"] = .ok m ∧
      (∀ w, (m.lookup w).isSome ↔
        ∃ d ∈ ([[("_id", Value.vint 1), ("message_id", Value.vint 9)]] : Coll),
          Doc.get d "message_id" = some w) ∧
      (∀ p ∈ m, ∃ d ∈ ([[("_id", Value.vint 1),
            ("message_id", Value.vint 9)]] : Coll),
        Doc.get d "message_id" = some p.1 ∧
        p.2 = Doc.project d ["message_id"])) ∧
    load_pending_jobs_data
        [[("_id", Value.vint 1), ("message_id", Value.vint 9),
          ("channel_id", Value.vint 3)]] ["channel_id"]
      = .error "KeyError: message_id" :=
  load_pending_jobs_data_spec
    [[("_id", Value.vint 1), ("message_id", Value.vint 9)]]
    ["message_id"] (by decide) (by decide)

/-- C1 (amended): each iteration of `get_anniversary_account_ids` selects
exactly the accounts whose creation timestamp lies strictly between the
midnights of the anniversary day and of its stepped upper-bound day —
exclusive at both ends, so an account created exactly at midnight of an
anniversary day is excluded.  The date hypotheses (valid dates, years at
least 2) keep every date the loop steps inside `datetime`'s range, where
the embedding agrees with the Python date arithmetic. -/
theorem anniversary_window_strict (coll : Coll) (R M : DateTime)
    (hW : ∀ d ∈ coll, (Doc.get d "_id").isSome ∧
      (Doc.get d "display_name").isSome)
    (hRval : R.date.Valid) (hMval : M.date.Valid)
    (hRy : 2 ≤ R.date.year) (hMy : 2 ≤ M.date.year) :
    ∃ bs ns fin, get_anniversary_account_ids coll R M = .ok (bs, ns, fin) ∧
      ∀ k w, 1 ≤ k →
        (inBucket bs k w ↔
          (M.le (midnight (nthAnniversary R.date k)) ∧
           ∃ d ∈ coll,
             (∃ z : Int, Doc.get d "creation_date" = some (Value.vint z) ∧
               to_timestamp (midnight (nthAnniversary R.date k)) < z ∧
               z < to_timestamp (midnight (nthUpperBound R.date k))) ∧
             Doc.get d "_id" = some w)) := by
  obtain ⟨bs, ns, n, heq, hconds, hstop, hmem, -⟩ :=
    annivLoop_ok coll M hW (annivFuel R.date M) (subYearsDate R.date)
      (addDay (subYearsDate R.date)) 1 [] [] (by unfold annivFuel; omega)
  refine ⟨bs, ns, 1 + n, heq, ?_⟩
  intro k w hk
  rw [hmem k w]
  have hnil : ¬ inBucket [] k w := by
    rintro ⟨l, hl, -⟩
    simp [List.lookup] at hl
  obtain ⟨i, rfl⟩ : ∃ i, k = i + 1 := ⟨k - 1, by omega⟩
  rw [nthAnniversary_succ, nthUpperBound_succ, ← matchWin_iff]
  constructor
  · rintro (hfalse | ⟨i', hi', hik, hmw⟩)
    · exact absurd hfalse hnil
    · have hii : i' = i := by omega
      rw [hii] at hi' hmw
      exact ⟨hconds i hi', hmw⟩
  · rintro ⟨hcond, hmw⟩
    exact Or.inr ⟨i,
      (cond_lt_iff M (subYearsDate R.date) n hconds hstop i).mpr hcond,
      by omega, hmw⟩

/-- C1 witness: an account strictly inside the first anniversary window is
selected into bucket 1 (all hypotheses discharged on concrete data). -/
theorem anniversary_window_strict_witness :
    ∃ bs ns fin, get_anniversary_account_ids
        [[("_id", Value.vint 42), ("display_name", Value.vstr "al"),
          ("creation_date", Value.vint 63719481601)]]
        (DateTime.mk (Date.mk 2021 3 10) 0) (DateTime.mk (Date.mk 2020 1 1) 0)
        = .ok (bs, ns, fin) ∧
      ∀ k w, 1 ≤ k →
        (inBucket bs k w ↔
          ((DateTime.mk (Date.mk 2020 1 1) 0).le
            (midnight (nthAnniversary (Date.mk 2021 3 10) k)) ∧
           ∃ d ∈ ([[("_id", Value.vint 42), ("display_name", Value.vstr "al"),
              ("creation_date", Value.vint 63719481601)]] : Coll),
             (∃ z : Int, Doc.get d "creation_date" = some (Value.vint z) ∧
               to_timestamp
                 (midnight (nthAnniversary (Date.mk 2021 3 10) k)) < z ∧
               z < to_timestamp
                 (midnight (nthUpperBound (Date.mk 2021 3 10) k))) ∧
             Doc.get d "_id" = some w)) :=
  anniversary_window_strict
    [[("_id", Value.vint 42), ("display_name", Value.vstr "al"),
      ("creation_date", Value.vint 63719481601)]]
    (DateTime.mk (Date.mk 2021 3 10) 0) (DateTime.mk (Date.mk 2020 1 1) 0)
    (by decide) (by decide) (by decide) (by decide) (by decide)

/-- C1 as stated is false on the code: the query uses strict `$gt`, so an
account created exactly at midnight of the first anniversary day
(2020-03-10, timestamp 63719481600, for reference date 2021-03-10 — a day
the loop does reach, as the last conjunct shows) is selected into no
bucket at all; the loop then exits without stepping any date out of
`datetime`'s range (minimum creation date 2020-01-01). -/
theorem anniversary_midnight_excluded_counterexample :
    to_timestamp (midnight (nthAnniversary (Date.mk 2021 3 10) 1))
      = 63719481600 ∧
    Doc.get [("_id", Value.vint 42), ("display_name", Value.vstr "al"),
      ("creation_date", Value.vint 63719481600)] "creation_date"
      = some (Value.vint 63719481600) ∧
    get_anniversary_account_ids
      [[("_id", Value.vint 42), ("display_name", Value.vstr "al"),
        ("creation_date", Value.vint 63719481600)]]
      (DateTime.mk (Date.mk 2021 3 10) 0) (DateTime.mk (Date.mk 2020 1 1) 0)
      = .ok ([], [], 2) ∧
    (DateTime.mk (Date.mk 2020 1 1) 0).le
      (midnight (nthAnniversary (Date.mk 2021 3 10) 1)) :=
  ⟨rfl, rfl, rfl, by decide⟩

/-- C2: the returned buckets carry only years between 1 and the number of
whole years between the minimum creation date and the reference date, and
under MongoDB's unique-`_id` invariant no account identifier appears in
two buckets.  The date hypotheses (valid dates, years at least 2) keep
every date the loop steps inside `datetime`'s range, where the embedding
agrees with the Python date arithmetic. -/
theorem anniversary_buckets_partition (coll : Coll) (R M : DateTime)
    (hW : ∀ d ∈ coll, (Doc.get d "_id").isSome ∧
      (Doc.get d "display_name").isSome)
    (hids : coll.Pairwise (fun d₁ d₂ => Doc.get d₁ "_id" ≠ Doc.get d₂ "_id"))
    (hval : R.date.Valid) (hMval : M.date.Valid)
    (hRy : 2 ≤ R.date.year) (hMy : 2 ≤ M.date.year) (hRM : M.le R) :
    ∃ bs ns fin, get_anniversary_account_ids coll R M = .ok (bs, ns, fin) ∧
      (∀ p ∈ bs, 1 ≤ p.1 ∧ p.1 ≤ floorYearsBetween M R.date) ∧
      (∀ w k₁ k₂, inBucket bs k₁ w → inBucket bs k₂ w → k₁ = k₂) := by
  obtain ⟨bs, ns, n, heq, hconds, hstop, hmem, hsome⟩ :=
    annivLoop_ok coll M hW (annivFuel R.date M) (subYearsDate R.date)
      (addDay (subYearsDate R.date)) 1 [] [] (by unfold annivFuel; omega)
  have hfy : floorYearsBetween M R.date = n :=
    floorYears_eq M R.date n hconds hstop
  refine ⟨bs, ns, 1 + n, heq, ?_, ?_⟩
  · intro p hp
    have hps : (bs.lookup p.1).isSome := lookup_isSome_of_mem hp
    rcases (hsome p.1).mp hps with hnil | ⟨i, hi, hpk, -⟩
    · simp [List.lookup] at hnil
    · rw [hfy]
      omega
  · intro w k₁ k₂ hb1 hb2
    have hnil : ∀ j, ¬ inBucket [] j w := by
      rintro j ⟨l, hl, -⟩
      simp [List.lookup] at hl
    rcases (hmem k₁ w).mp hb1 with h1 | ⟨i₁, hi₁, hk₁, hmw₁⟩
    · exact absurd h1 (hnil k₁)
    rcases (hmem k₂ w).mp hb2 with h2 | ⟨i₂, hi₂, hk₂, hmw₂⟩
    · exact absurd h2 (hnil k₂)
    rcases (matchWin_iff _ _ _ _).mp hmw₁ with
      ⟨d₁, hd₁, ⟨z₁, hz₁, hlo₁, hhi₁⟩, hid₁⟩
    rcases (matchWin_iff _ _ _ _).mp hmw₂ with
      ⟨d₂, hd₂, ⟨z₂, hz₂, hlo₂, hhi₂⟩, hid₂⟩
    have hdd : d₁ = d₂ := by
      by_contra hne
      have hsym : Symmetric
          (fun d₁ d₂ : Doc => Doc.get d₁ "_id" ≠ Doc.get d₂ "_id") :=
        fun x y h => h.symm
      have hR := (List.Pairwise.forall hsym hids) hd₁ hd₂ hne
      rw [hid₁, hid₂] at hR
      exact hR rfl
    subst hdd
    have hz : z₁ = z₂ := by
      rw [hz₁] at hz₂
      injection hz₂ with h
      injection h
    subst hz
    have hii : i₁ = i₂ := by
      by_contra hne
      rcases Nat.lt_or_ge i₁ i₂ with h | h
      · exact windows_disjoint hval h z₁ hlo₁ hhi₂
      · exact windows_disjoint hval (by omega : i₂ < i₁) z₁ hlo₂ hhi₁
    omega

/-- C2 witness. -/
theorem anniversary_buckets_partition_witness :
    ∃ bs ns fin, get_anniversary_account_ids
        [[("_id", Value.vint 42), ("display_name", Value.vstr "al"),
          ("creation_date", Value.vint 63719481601)]]
        (DateTime.mk (Date.mk 2021 3 10) 0) (DateTime.mk (Date.mk 2020 1 1) 0)
        = .ok (bs, ns, fin) ∧
      (∀ p ∈ bs, 1 ≤ p.1 ∧ p.1 ≤ floorYearsBetween
        (DateTime.mk (Date.mk 2020 1 1) 0) (Date.mk 2021 3 10)) ∧
      (∀ w k₁ k₂, inBucket bs k₁ w → inBucket bs k₂ w → k₁ = k₂) :=
  anniversary_buckets_partition
    [[("_id", Value.vint 42), ("display_name", Value.vstr "al"),
      ("creation_date", Value.vint 63719481601)]]
    (DateTime.mk (Date.mk 2021 3 10) 0) (DateTime.mk (Date.mk 2020 1 1) 0)
    (by decide) (by decide) (by decide) (by decide) (by decide) (by decide)
    (by decide)

/-- C3: the loop of `get_anniversary_account_ids` terminates with its
years counter at one plus the number of whole years between the minimum
creation date and the reference date (so that many iterations and
queries), and it exits immediately as soon as the anniversary day
precedes the minimum creation date.  The date hypotheses (valid dates,
years at least 2) keep every date the loop steps inside `datetime`'s
range, where the embedding agrees with the Python date arithmetic. -/
theorem anniversary_loop_terminates (coll : Coll) (R M : DateTime)
    (hW : ∀ d ∈ coll, (Doc.get d "_id").isSome ∧
      (Doc.get d "display_name").isSome)
    (hRval : R.date.Valid) (hMval : M.date.Valid)
    (hRy : 2 ≤ R.date.year) (hMy : 2 ≤ M.date.year) :
    ∃ bs ns fin, get_anniversary_account_ids coll R M = .ok (bs, ns, fin) ∧
      fin = 1 + floorYearsBetween M R.date ∧
      (∀ (fuel : Nat) (a b : Date) (k : Nat) (bs₀ : Buckets)
          (ns₀ : List Value),
        1 ≤ fuel → ¬ M.le (midnight a) →
        annivLoop coll M fuel a b k bs₀ ns₀ = .ok (bs₀, ns₀, k)) := by
  obtain ⟨bs, ns, n, heq, hconds, hstop, -, -⟩ :=
    annivLoop_ok coll M hW (annivFuel R.date M) (subYearsDate R.date)
      (addDay (subYearsDate R.date)) 1 [] [] (by unfold annivFuel; omega)
  refine ⟨bs, ns, 1 + n, heq, ?_, ?_⟩
  · rw [floorYears_eq M R.date n hconds hstop]
  · intro fuel a b k bs₀ ns₀ hf hM
    cases fuel with
    | zero => omega
    | succ fuel =>
      unfold annivLoop
      rw [if_neg hM]

/-- C3 witness: on concrete data the loop finishes with the counter at
`1 + floorYearsBetween`, and a loop started below the minimum creation
date exits at once. -/
theorem anniversary_loop_terminates_witness :
    annivLoop
      [[("_id", Value.vint 42), ("display_name", Value.vstr "al"),
        ("creation_date", Value.vint 63719481601)]]
      (DateTime.mk (Date.mk 2020 1 1) 0) 3 (Date.mk 2019 6 1)
      (Date.mk 2019 6 2) 9 [] [] = .ok ([], [], 9) := by
  obtain ⟨bs, ns, fin, -, -, h3⟩ :=
    anniversary_loop_terminates
      [[("_id", Value.vint 42), ("display_name", Value.vstr "al"),
        ("creation_date", Value.vint 63719481601)]]
      (DateTime.mk (Date.mk 2021 3 10) 0) (DateTime.mk (Date.mk 2020 1 1) 0)
      (by decide) (by decide) (by decide) (by decide) (by decide)
  exact h3 3 (Date.mk 2019 6 1) (Date.mk 2019 6 2) 9 [] [] (by omega)
    (by decide)

end ZBot
